import Mathlib

/-!
Verification of the PAF parsing library (grammar parser in `complete.rs`,
data model in `paf.rs`, error localisation in `errors.rs`).

The embedding models textual input as `List Char` and raw-byte input as
`List Nat` (each element a byte value, `0 ≤ b < 256` for real inputs).
Parsers follow nom 5's `complete` combinators with `VerboseError`-style
structured failures: a failure carries the remaining-input suffix at which
each layer failed together with an error kind, and nom's `Err::Error` /
`Err::Failure` distinction (the latter produced by `cut`) is kept.
Positions count characters; on the ASCII inputs the equivalence claims
quantify over, character counts and Rust's byte counts agree.
-/

namespace PafLib

/-- Error kinds of nom's `ErrorKind` that the library's rules can produce. -/
inductive NomKind where
  | oneOf
  | digit
  | isNot
  | mapRes
  | eof
  | separatedList
deriving DecidableEq

/-- `VerboseErrorKind`: a literal-character expectation, a context label
added by `context`, or an uninterpreted low-level kind. -/
inductive VKind where
  | vchar (c : Char)
  | vctx (s : String)
  | vnom (k : NomKind)
deriving DecidableEq

/-- `VerboseError`: the ordered list of (remaining input, kind) pairs,
innermost failure first; `context` appends at the end, as nom's
`add_context` pushes onto the vector. -/
abbrev VErr (I : Type) := List (I × VKind)

/-- nom's `Err`: recoverable `Error` versus unrecoverable `Failure`
(produced by `cut`). -/
inductive PErr (I : Type) where
  | err (e : VErr I)
  | fail (e : VErr I)
deriving DecidableEq

/-- Result of running a rule: the unconsumed remainder and the decoded
value, or a structured failure. -/
abbrev PResult (I α : Type) := Except (PErr I) (I × α)

/-- Parsers over an input that is a list of tokens of type `τ`. -/
abbrev LP (τ α : Type) := List τ → PResult (List τ) α

/-- nom's `map`. -/
def pmap {τ α β : Type} (f : LP τ α) (g : α → β) : LP τ β := fun i =>
  match f i with
  | .ok (r, v) => .ok (r, g v)
  | .error e => .error e

/-- nom's `map_res`; on a failing conversion the error is positioned at
the input given to the whole rule (`MapRes` kind). -/
def map_res {τ α β : Type} (f : LP τ α) (g : α → Option β) : LP τ β := fun i =>
  match f i with
  | .ok (r, v) =>
    match g v with
    | some w => .ok (r, w)
    | none => .error (.err [(i, .vnom .mapRes)])
  | .error e => .error e

/-- nom's `context`: wraps failures of either severity by appending a
`Context` entry holding the label and the rule's input. -/
def contextP {τ α : Type} (s : String) (f : LP τ α) : LP τ α := fun i =>
  match f i with
  | .ok o => .ok o
  | .error (.err e) => .error (.err (e ++ [(i, .vctx s)]))
  | .error (.fail e) => .error (.fail (e ++ [(i, .vctx s)]))

/-- nom's `tuple` for two rules: run both in sequence, pair the values. -/
def pseq {τ α β : Type} (f : LP τ α) (g : LP τ β) : LP τ (α × β) := fun i =>
  match f i with
  | .ok (i1, a) =>
    match g i1 with
    | .ok (i2, b) => .ok (i2, (a, b))
    | .error e => .error e
  | .error e => .error e

/-- nom's `terminated`: sequence two rules, keep the first value. -/
def terminatedP {τ α β : Type} (f : LP τ α) (g : LP τ β) : LP τ α :=
  pmap (pseq f g) (fun x => x.1)

/-- nom's `preceded`: sequence two rules, keep the second value. -/
def precededP {τ α β : Type} (f : LP τ α) (g : LP τ β) : LP τ β :=
  pmap (pseq f g) (fun x => x.2)

/-- nom's `opt`: a recoverable failure yields `none` and consumes nothing;
an unrecoverable failure propagates. -/
def optP {τ α : Type} (f : LP τ α) : LP τ (Option α) := fun i =>
  match f i with
  | .ok (r, v) => .ok (r, some v)
  | .error (.err _) => .ok (i, none)
  | .error (.fail e) => .error (.fail e)

/-- nom's `cut`: upgrade a recoverable failure to an unrecoverable one. -/
def cutP {τ α : Type} (f : LP τ α) : LP τ α := fun i =>
  match f i with
  | .error (.err e) => .error (.fail e)
  | x => x

/-- nom's `all_consuming`: succeed only if the inner rule leaves no
remainder; otherwise fail with an `Eof` error at the remainder. -/
def all_consumingP {τ α : Type} (f : LP τ α) : LP τ α := fun i =>
  match f i with
  | .ok (r, v) => if r.length = 0 then .ok (r, v) else .error (.err [(r, .vnom .eof)])
  | .error e => .error e

/-- Loop of nom 5's `separated_list` after the first element has been
read: repeatedly try separator then element, stopping (without consuming
the pending separator) as soon as either fails recoverably.  nom guards
against non-consuming iterations by comparing the remaining input before
and after (here: by length, which coincides for the suffix-returning
rules of this library) and errs with `SeparatedList`; consequently every
iteration strictly shrinks the input, so a fuel of `input length + 1`
can never run out.  The fuel-exhausted branch returns the same
`SeparatedList` error and is unreachable for the rules used here. -/
def sepLoop {τ α β : Type} (sep : LP τ β) (f : LP τ α) :
    Nat → List τ → List α → PResult (List τ) (List α)
  | 0, i, _ => .error (.err [(i, .vnom .separatedList)])
  | fuel + 1, i, res =>
    match sep i with
    | .error (.err _) => .ok (i, res)
    | .error (.fail e) => .error (.fail e)
    | .ok (i1, _) =>
      if i1.length = i.length then .error (.err [(i1, .vnom .separatedList)])
      else
        match f i1 with
        | .error (.err _) => .ok (i, res)
        | .error (.fail e) => .error (.fail e)
        | .ok (i2, o) =>
          if i2.length = i.length then .error (.err [(i2, .vnom .separatedList)])
          else sepLoop sep f fuel i2 (res ++ [o])

/-- nom 5's `separated_list`: zero or more elements separated by the
separator rule.  A recoverable failure of the very first element yields
the empty list and consumes nothing. -/
def separated_listP {τ α β : Type} (sep : LP τ β) (f : LP τ α) : LP τ (List α) := fun i =>
  match f i with
  | .error (.err _) => .ok (i, [])
  | .error (.fail e) => .error (.fail e)
  | .ok (i1, o) =>
    if i1.length = i.length then .error (.err [(i1, .vnom .separatedList)])
    else sepLoop sep f (i1.length + 1) i1 [o]

/-! ### Token-level rules -/

/-- nom's `char` on textual input: consume exactly the character `c`; on
mismatch or empty input fail with a `Char` expectation at the input. -/
def charC (c : Char) : LP Char Char := fun i =>
  match i with
  | x :: r => if x = c then .ok (r, c) else .error (.err [(i, .vchar c)])
  | [] => .error (.err [(i, .vchar c)])

/-- nom's `char` on byte input: the head byte, viewed as a character
(`AsChar` on `u8`), must equal `c`; for `c` in the byte range this is
exactly a comparison of the byte with `c`'s code. -/
def charB (c : Char) : LP Nat Char := fun i =>
  match i with
  | b :: r => if b = c.toNat then .ok (r, c) else .error (.err [(i, .vchar c)])
  | [] => .error (.err [(i, .vchar c)])

/-- `nom::character::complete::tab` (textual). -/
def tabC : LP Char Char := charC '\t'

/-- `nom::character::complete::tab` (bytes). -/
def tabB : LP Nat Char := charB '\t'

/-- `nom::character::complete::newline` (textual). -/
def newlineC : LP Char Char := charC '\n'

/-- `nom::character::complete::newline` (bytes). -/
def newlineB : LP Nat Char := charB '\n'

/-- nom's `one_of` on textual input: consume one character belonging to
the list, else fail with a `OneOf` error. -/
def one_ofC (list : List Char) : LP Char Char := fun i =>
  match i with
  | x :: r => if x ∈ list then .ok (r, x) else .error (.err [(i, .vnom .oneOf)])
  | [] => .error (.err [(i, .vnom .oneOf)])

/-- nom's `one_of` on byte input: `FindToken<u8> for &str` compares the
byte against the pattern's bytes, and the matched byte is returned as a
character; a byte matching an element of a distinct-code list is that
very element. -/
def one_ofB (list : List Char) : LP Nat Char := fun i =>
  match i with
  | b :: r =>
    match list.find? (fun c => c.toNat = b) with
    | some c => .ok (r, c)
    | none => .error (.err [(i, .vnom .oneOf)])
  | [] => .error (.err [(i, .vnom .oneOf)])

/-- ASCII decimal-digit test, as nom's `AsChar::is_dec_digit` on chars. -/
def isDigitC (c : Char) : Bool := 48 ≤ c.toNat && c.toNat ≤ 57

/-- ASCII decimal-digit test on a byte, as `AsChar::is_dec_digit` on `u8`. -/
def isDigitB (b : Nat) : Bool := 48 ≤ b && b ≤ 57

/-- nom's `digit1` on textual input: the longest nonempty run of ASCII
digits; zero digits is a `Digit` failure at the input. -/
def digit1C : LP Char (List Char) := fun i =>
  let ds := i.takeWhile isDigitC
  if ds = [] then .error (.err [(i, .vnom .digit)]) else .ok (i.drop ds.length, ds)

/-- nom's `digit1` on byte input. -/
def digit1B : LP Nat (List Nat) := fun i =>
  let ds := i.takeWhile isDigitB
  if ds = [] then .error (.err [(i, .vnom .digit)]) else .ok (i.drop ds.length, ds)

/-- nom's `is_not` on textual input: the longest nonempty run of
characters not in `bad`; an empty run is an `IsNot` failure. -/
def is_notC (bad : List Char) : LP Char (List Char) := fun i =>
  let xs := i.takeWhile (fun c => !(bad.contains c))
  if xs = [] then .error (.err [(i, .vnom .isNot)]) else .ok (i.drop xs.length, xs)

/-- nom's `is_not` on byte input. -/
def is_notB (bad : List Nat) : LP Nat (List Nat) := fun i =>
  let xs := i.takeWhile (fun b => !(bad.contains b))
  if xs = [] then .error (.err [(i, .vnom .isNot)]) else .ok (i.drop xs.length, xs)

/-- Numeric value of a digit run, most significant digit first: the value
computed by Rust's `str::parse` on a nonempty all-digit string. -/
def parseNat (ds : List Char) : Nat := ds.foldl (fun a c => 10 * a + (c.toNat - 48)) 0

/-- Numeric value of a digit run given as bytes; `from_utf8_unchecked`
followed by `parse` computes exactly this digit fold. -/
def parseNatB (ds : List Nat) : Nat := ds.foldl (fun a b => 10 * a + (b - 48)) 0

/-- Rust's `str::parse::<u64>` on a nonempty all-digit string: the value
if it fits in 64 bits, otherwise an overflow error. -/
def parseU64 (ds : List Char) : Option Nat :=
  let n := parseNat ds
  if n < 2 ^ 64 then some n else none

/-- `parse::<u64>` reached through `from_utf8_unchecked` on digit bytes. -/
def parseU64B (ds : List Nat) : Option Nat :=
  let n := parseNatB ds
  if n < 2 ^ 64 then some n else none

/-- Rust's `str::parse::<u8>` on a nonempty all-digit string. -/
def parseU8 (ds : List Char) : Option Nat :=
  let n := parseNat ds
  if n < 2 ^ 8 then some n else none

/-- `parse::<u8>` reached through `from_utf8_unchecked` on digit bytes. -/
def parseU8B (ds : List Nat) : Option Nat :=
  let n := parseNatB ds
  if n < 2 ^ 8 then some n else none

/-- One step of UTF-8 validation and decoding, as Rust's
`str::from_utf8`: rejects stray continuation bytes, overlong encodings,
surrogate code points and values above `0x10FFFF`.  The fuel only bounds
the recursion depth; every step consumes at least one byte, so a fuel
equal to the list length always suffices and the fuel-exhausted branch
(`none`) is unreachable. -/
def utf8DecodeAux : Nat → List Nat → Option (List Char)
  | _, [] => some []
  | 0, _ :: _ => none
  | fuel + 1, b :: bs =>
    if b < 0x80 then (utf8DecodeAux fuel bs).map (fun cs => Char.ofNat b :: cs)
    else if b < 0xC2 then none
    else if b < 0xE0 then
      match bs with
      | b1 :: bs1 =>
        if 0x80 ≤ b1 ∧ b1 < 0xC0 then
          (utf8DecodeAux fuel bs1).map
            (fun cs => Char.ofNat ((b - 0xC0) * 0x40 + (b1 - 0x80)) :: cs)
        else none
      | [] => none
    else if b < 0xF0 then
      match bs with
      | b1 :: b2 :: bs2 =>
        if (0x80 ≤ b1 ∧ b1 < 0xC0) ∧ (0x80 ≤ b2 ∧ b2 < 0xC0) ∧
            (b = 0xE0 → 0xA0 ≤ b1) ∧ (b = 0xED → b1 < 0xA0) then
          (utf8DecodeAux fuel bs2).map (fun cs =>
            Char.ofNat ((b - 0xE0) * 0x1000 + (b1 - 0x80) * 0x40 + (b2 - 0x80)) :: cs)
        else none
      | _ => none
    else if b < 0xF5 then
      match bs with
      | b1 :: b2 :: b3 :: bs3 =>
        if (0x80 ≤ b1 ∧ b1 < 0xC0) ∧ (0x80 ≤ b2 ∧ b2 < 0xC0) ∧ (0x80 ≤ b3 ∧ b3 < 0xC0) ∧
            (b = 0xF0 → 0x90 ≤ b1) ∧ (b = 0xF4 → b1 < 0x90) then
          (utf8DecodeAux fuel bs3).map (fun cs =>
            Char.ofNat ((b - 0xF0) * 0x40000 + (b1 - 0x80) * 0x1000 +
              (b2 - 0x80) * 0x40 + (b3 - 0x80)) :: cs)
        else none
      | _ => none
    else none

/-- UTF-8 validation and decoding of a whole byte string, as Rust's
`str::from_utf8` (then `to_string`). -/
def utf8Decode (bs : List Nat) : Option (List Char) := utf8DecodeAux bs.length bs

/-- Decimal digit character for `d < 10`, as produced by Rust's decimal
formatting of unsigned integers. -/
def digitChar (d : Nat) : Char :=
  if d = 0 then '0' else if d = 1 then '1' else if d = 2 then '2'
  else if d = 3 then '3' else if d = 4 then '4' else if d = 5 then '5'
  else if d = 6 then '6' else if d = 7 then '7' else if d = 8 then '8' else '9'

/-- Fuel-driven decimal rendering, most significant digit first.  The
fuel only bounds the recursion depth; `n + 1` units always suffice. -/
def natDigitsAux : Nat → Nat → List Char
  | 0, _ => []
  | fuel + 1, n =>
    if n < 10 then [digitChar n]
    else natDigitsAux fuel (n / 10) ++ [digitChar (n % 10)]

/-- Decimal rendering of an unsigned integer, as Rust's `{}` formatting
of `u64` / `u8` values. -/
def natDigits (n : Nat) : List Char := natDigitsAux (n + 1) n

/-! ### Data model (`paf.rs`) -/

/-- Strand of the alignment between two loci. -/
inductive Strand where
  | Plus
  | Minus
deriving DecidableEq

/-- `impl Into<char> for &Strand`. -/
def Strand.toChar : Strand → Char
  | .Plus => '+'
  | .Minus => '-'

/-- `TryFrom<char> for Strand` followed by the `.unwrap()` in the strand
rule: total on the two characters `one_of("+-")` can produce (on any
other character the rule has already failed). -/
def Strand.ofChar (c : Char) : Strand :=
  if c = '+' then .Plus else .Minus

/-- Aligned region from one of the sequences.  `end` is a reserved word
in Lean, hence the field name `end_`. -/
structure Locus where
  name : String
  length : Nat
  start : Nat
  end_ : Nat
deriving DecidableEq

/-- `Locus::new`. -/
def Locus.new (name : String) (length start end_ : Nat) : Locus :=
  ⟨name, length, start, end_⟩

/-- `impl fmt::Display for Locus`: tab-joined name, length, start, end. -/
def Locus.display (l : Locus) : List Char :=
  l.name.data ++ '\t' :: natDigits l.length ++ '\t' :: natDigits l.start
    ++ '\t' :: natDigits l.end_

/-- One PAF record. -/
structure PAF where
  query : Locus
  strand : Strand
  target : Locus
  nmatch : Nat
  alnlen : Nat
  mq : Nat
  fields : List String
deriving DecidableEq

/-- `PAF::new`. -/
def PAF.new (query : Locus) (strand : Strand) (target : Locus)
    (nmatch alnlen mq : Nat) (fields : List String) : PAF :=
  ⟨query, strand, target, nmatch, alnlen, mq, fields⟩

/-- `fields.join("\t")`. -/
def tabJoin : List String → List Char
  | [] => []
  | [f] => f.data
  | f :: g :: fs => f.data ++ '\t' :: tabJoin (g :: fs)

/-- The twelve tab-separated core fields as rendered by `Display for
PAF` (both of its branches start with exactly this text). -/
def coreFields (q : Locus) (st : Strand) (t : Locus) (nm al mq : Nat) : List Char :=
  q.display ++ '\t' :: st.toChar :: '\t' :: t.display ++ '\t' :: natDigits nm
    ++ '\t' :: natDigits al ++ '\t' :: natDigits mq

/-- `impl fmt::Display for PAF`: the optional fields are appended
(tab-joined, after a separating tab) only when more than one is
present. -/
def PAF.display (p : PAF) : List Char :=
  if p.fields.length > 1 then
    coreFields p.query p.strand p.target p.nmatch p.alnlen p.mq ++ '\t' :: tabJoin p.fields
  else
    coreFields p.query p.strand p.target p.nmatch p.alnlen p.mq

/-! ### Field and record rules (`complete.rs`)

The source defines `strand` once, generically over the input type, and
every other rule twice (`_str` for `&str`, `_u8` for `&[u8]`); the
generic rule is embedded as its two instantiations. -/

/-- `strand` instantiated at textual input: `+` or `-` decoded through
`TryFrom` (total on the accepted characters). -/
def strand_str : LP Char Strand :=
  pmap (contextP "expected either '+' or '-'" (one_ofC ['+', '-'])) Strand.ofChar

/-- `strand` instantiated at byte input. -/
def strand_u8 : LP Nat Strand :=
  pmap (contextP "expected either '+' or '-'" (one_ofB ['+', '-'])) Strand.ofChar

/-- `string_str`: a nonempty run of characters other than tab, carriage
return and newline, kept as an owned string. -/
def string_str : LP Char String :=
  contextP "expected an utf-8 string"
    (pmap (is_notC ['\t', '\r', '\n']) (fun bs => String.mk bs))

/-- `string_u8`: as `string_str` on bytes, with the consumed bytes
additionally required to be valid UTF-8. -/
def string_u8 : LP Nat String :=
  contextP "expected an utf-8 string"
    (map_res (is_notB [9, 13, 10]) (fun bs => (utf8Decode bs).map String.mk))

/-- `uint64_str`: a digit run parsed as an unsigned 64-bit integer. -/
def uint64_str : LP Char Nat :=
  contextP "expected an unsigned 64-bit integer" (map_res digit1C parseU64)

/-- `uint64_u8`. -/
def uint64_u8 : LP Nat Nat :=
  contextP "expected an unsigned 64-bit integer" (map_res digit1B parseU64B)

/-- `uint8_str`: a digit run parsed as an unsigned 8-bit integer. -/
def uint8_str : LP Char Nat :=
  contextP "expected an unsigned 8-bit integer" (map_res digit1C parseU8)

/-- `uint8_u8`. -/
def uint8_u8 : LP Nat Nat :=
  contextP "expected an unsigned 8-bit integer" (map_res digit1B parseU8B)

/-- `locus_str`: seqid, length, start, end; the first three terminated by
a tab, each field wrapped in its column-naming context. -/
def locus_str : LP Char Locus :=
  pmap
    (pseq (contextP "in column: seqid" (terminatedP string_str tabC))
      (pseq (contextP "in column: length" (terminatedP uint64_str tabC))
        (pseq (contextP "in column: start" (terminatedP uint64_str tabC))
          (contextP "in column: end" uint64_str))))
    (fun tup =>
      match tup with
      | (n, l, s, e) => Locus.new n l s e)

/-- `locus_u8`. -/
def locus_u8 : LP Nat Locus :=
  pmap
    (pseq (contextP "in column: seqid" (terminatedP string_u8 tabB))
      (pseq (contextP "in column: length" (terminatedP uint64_u8 tabB))
        (pseq (contextP "in column: start" (terminatedP uint64_u8 tabB))
          (contextP "in column: end" uint64_u8))))
    (fun tup =>
      match tup with
      | (n, l, s, e) => Locus.new n l s e)

/-- `sam_fields_str`: the optional trailing fields, tab-separated. -/
def sam_fields_str : LP Char (List String) :=
  separated_listP tabC string_str

/-- `sam_fields_u8`. -/
def sam_fields_u8 : LP Nat (List String) :=
  separated_listP tabB string_u8

/-- `paf_str`: the twelve core fields, the optional fields after an
optional tab, and an optional trailing newline. -/
def paf_str : LP Char PAF :=
  pmap
    (pseq (contextP "in column: query seqid" (terminatedP string_str tabC))
      (pseq (contextP "in column: query length" (terminatedP uint64_str tabC))
        (pseq (contextP "in column: query start" (terminatedP uint64_str tabC))
          (pseq (contextP "in column: query end" (terminatedP uint64_str tabC))
            (pseq (contextP "in column: strand" (terminatedP strand_str tabC))
              (pseq (contextP "in column: target seqid" (terminatedP string_str tabC))
                (pseq (contextP "in column: target length" (terminatedP uint64_str tabC))
                  (pseq (contextP "in column: target start" (terminatedP uint64_str tabC))
                    (pseq (contextP "in column: target end" (terminatedP uint64_str tabC))
                      (pseq (contextP "in column: number matches" (terminatedP uint64_str tabC))
                        (pseq (contextP "in column: alignment length" (terminatedP uint64_str tabC))
                          (pseq (contextP "in column: mapping quality" uint8_str)
                            (pseq
                              (contextP "in column: optional sam fields"
                                (precededP (optP tabC) sam_fields_str))
                              (optP newlineC))))))))))))))
    (fun tup =>
      match tup with
      | (qn, ql, qs, qe, st, tn, tl, ts, te, nm, al, mq, fl, _) =>
        PAF.new (Locus.new qn ql qs qe) st (Locus.new tn tl ts te) nm al mq fl)

/-- `paf_u8`. -/
def paf_u8 : LP Nat PAF :=
  pmap
    (pseq (contextP "in column: query seqid" (terminatedP string_u8 tabB))
      (pseq (contextP "in column: query length" (terminatedP uint64_u8 tabB))
        (pseq (contextP "in column: query start" (terminatedP uint64_u8 tabB))
          (pseq (contextP "in column: query end" (terminatedP uint64_u8 tabB))
            (pseq (contextP "in column: strand" (terminatedP strand_u8 tabB))
              (pseq (contextP "in column: target seqid" (terminatedP string_u8 tabB))
                (pseq (contextP "in column: target length" (terminatedP uint64_u8 tabB))
                  (pseq (contextP "in column: target start" (terminatedP uint64_u8 tabB))
                    (pseq (contextP "in column: target end" (terminatedP uint64_u8 tabB))
                      (pseq (contextP "in column: number matches" (terminatedP uint64_u8 tabB))
                        (pseq (contextP "in column: alignment length" (terminatedP uint64_u8 tabB))
                          (pseq (contextP "in column: mapping quality" uint8_u8)
                            (pseq
                              (contextP "in column: optional sam fields"
                                (precededP (optP tabB) sam_fields_u8))
                              (optP newlineB))))))))))))))
    (fun tup =>
      match tup with
      | (qn, ql, qs, qe, st, tn, tl, ts, te, nm, al, mq, fl, _) =>
        PAF.new (Locus.new qn ql qs qe) st (Locus.new tn tl ts te) nm al mq fl)

/-! ### Error localisation (`errors.rs`) -/

/-- The library's error taxonomy (`errors::Error`). -/
inductive Error where
  | ParseChar (got : Char) (expected : String)
  | ParseLine (line : String) (column : Nat) (details : List String)
  | Parse (line_num : Nat) (line : String) (column : Nat) (details : List String)
  | EmptyLine (line_num : Nat)
  | Empty
deriving DecidableEq

/-- `join_parse_details`: render the caret line.  Tabs before the failure
column are re-counted at a display width of four columns, then the
indicator is padded with spaces and the detail labels are joined with
single spaces. -/
def join_parse_details (line : String) (column : Nat) (details : List String) : String :=
  let count := ((line.data.take column).filter (fun c => c == '\t')).length
  let new_column := (column - count) + count * 4
  String.mk (List.replicate new_column ' ') ++ "^ " ++ String.intercalate " " details

/-- `check_empty_input`: an empty line list is reported as the
empty-input diagnostic, with the line number when one is tracked. -/
def check_empty_input (line_num : Option Nat) (lines : List (List Char)) :
    Except Error Unit :=
  if lines.isEmpty then
    match line_num with
    | some l => .error (.EmptyLine l)
    | none => .error .Empty
  else .ok ()

/-- Loop of `find_offset`: walk the lines, keeping an offset within the
current candidate line; when the loop ends without a break the line
index keeps its initial value `0`, as in the source. -/
def find_offsetAux : Nat → Nat → List (List Char) → Nat × Nat
  | offset, _, [] => (0, offset)
  | offset, j, l :: ls =>
    if offset ≤ l.length then (j, offset)
    else find_offsetAux (offset - l.length - 1) (j + 1) ls

/-- `find_offset`: convert an absolute offset into a (line index,
intra-line column) pair by subtracting each line's length plus one for
its terminator. -/
def find_offset (initial : Nat) (lines : List (List Char)) : Nat × Nat :=
  find_offsetAux initial 0 lines

/-- `push_errorkind`: uninterpreted low-level kinds are dropped; literal
character expectations and context labels become detail strings. -/
def push_errorkind (details : List String) (kind : VKind) : List String :=
  match kind with
  | .vchar c => details ++ ["expected character '" ++ String.mk [c] ++ "'"]
  | .vctx s => details ++ [s]
  | .vnom _ => details

/-- Helper for `rustLines`: split at every newline, returning the piece
before the first newline and the remaining pieces. -/
def splitNlAux : List Char → List Char × List (List Char)
  | [] => ([], [])
  | c :: cs =>
    let r := splitNlAux cs
    if c = '\n' then ([], r.1 :: r.2) else (c :: r.1, r.2)

/-- Strip one trailing carriage return, as Rust's `str::lines` does. -/
def stripCr (l : List Char) : List Char :=
  if l.getLast? = some '\r' then l.dropLast else l

/-- Rust's `str::lines` on the input: newline-separated lines, a final
trailing newline producing no extra empty line, and no lines at all for
empty input. -/
def rustLines (cs : List Char) : List (List Char) :=
  if cs = [] then []
  else
    let pieces := (splitNlAux cs).1 :: (splitNlAux cs).2
    let pieces := if cs.getLast? = some '\n' then pieces.dropLast else pieces
    pieces.map stripCr

/-- nom's `Offset::offset` between the input and one of its suffixes. -/
def offsetOf (input sub : List Char) : Nat := input.length - sub.length

/-- `convert_error_str`: turn a `VerboseError` on the original input into
the library's diagnostic.  Empty input is reported immediately; otherwise
the first (innermost) error entry fixes the line and column, every entry
contributes its detail label in order, and the line number offset decides
between the numbered and unnumbered diagnostic. -/
def convert_error_str (input : List Char) (error : VErr (List Char))
    (line_num_offset : Option Nat) : Error :=
  let lines := rustLines input
  match check_empty_input line_num_offset lines with
  | .error e => e
  | .ok _ =>
    let lck :=
      match error with
      | [] => (0, 0, VKind.vctx "Somehow we didn't get an error.")
      | (sub, kind) :: _ =>
        let lc := find_offset (offsetOf input sub) lines
        (lc.1, lc.2, kind)
    let details := push_errorkind [] lck.2.2
    let details := (error.drop 1).foldl (fun ds e => push_errorkind ds e.2) details
    match line_num_offset with
    | some l => .Parse (lck.1 + l) (String.mk (lines.getD lck.1 [])) lck.2.1 details
    | none => .ParseLine (String.mk (lines.getD lck.1 [])) lck.2.1 details

/-! ### Public entry points (`FromStr` in `paf.rs`) -/

/-- Shared shape of both `from_str` impls: run the rule all-consuming and
behind `cut`, and convert either failure severity into a diagnostic with
no line-number context. -/
def runFromStr {α : Type} (f : LP Char α) (s : List Char) : Except Error α :=
  match all_consumingP (cutP f) s with
  | .ok (_, v) => .ok v
  | .error (.err e) => .error (convert_error_str s e none)
  | .error (.fail e) => .error (convert_error_str s e none)

/-- `impl FromStr for PAF`. -/
def PAF.from_str (s : List Char) : Except Error PAF := runFromStr paf_str s

/-- `impl FromStr for Locus`. -/
def Locus.from_str (s : List Char) : Except Error Locus := runFromStr locus_str s

/-- Whether an `Except` value is a success. -/
def isOkE {ε α : Type} : Except ε α → Bool
  | .ok _ => true
  | .error _ => false

/-! ### Legality predicates

These encode the Rust types and the grammar's free-text alphabet: numeric
fields carry the range of their declared width, and a text field is a
nonempty run of characters other than tab, carriage return and newline
(nonempty because `is_not` requires at least one matching character). -/

/-- A character legal inside a free-text field. -/
abbrev goodChar (c : Char) : Prop := c ≠ '\t' ∧ c ≠ '\r' ∧ c ≠ '\n'

/-- A legal free-text field value. -/
abbrev GoodName (s : String) : Prop := s.data ≠ [] ∧ ∀ c ∈ s.data, goodChar c

/-- A locus value that the grammar can produce and re-read. -/
abbrev GoodLocus (l : Locus) : Prop :=
  GoodName l.name ∧ l.length < 2 ^ 64 ∧ l.start < 2 ^ 64 ∧ l.end_ < 2 ^ 64

/-- A PAF record value that the grammar can produce and re-read. -/
abbrev GoodPAF (p : PAF) : Prop :=
  GoodLocus p.query ∧ GoodLocus p.target ∧ p.nmatch < 2 ^ 64 ∧ p.alnlen < 2 ^ 64 ∧
    p.mq < 2 ^ 8 ∧ ∀ f ∈ p.fields, GoodName f

/-! ### Success lemmas for the combinators -/

theorem pmap_ok {τ α β : Type} {f : LP τ α} {g : α → β} {i r : List τ} {v : α}
    (h : f i = .ok (r, v)) : pmap f g i = .ok (r, g v) := by
  simp [pmap, h]

theorem pseq_ok {τ α β : Type} {f : LP τ α} {g : LP τ β} {i i1 i2 : List τ} {a : α} {b : β}
    (hf : f i = .ok (i1, a)) (hg : g i1 = .ok (i2, b)) : pseq f g i = .ok (i2, (a, b)) := by
  simp [pseq, hf, hg]

theorem contextP_ok {τ α : Type} {s : String} {f : LP τ α} {i r : List τ} {v : α}
    (h : f i = .ok (r, v)) : contextP s f i = .ok (r, v) := by
  simp [contextP, h]

theorem terminatedP_ok {τ α β : Type} {f : LP τ α} {g : LP τ β} {i i1 i2 : List τ}
    {a : α} {b : β} (hf : f i = .ok (i1, a)) (hg : g i1 = .ok (i2, b)) :
    terminatedP f g i = .ok (i2, a) :=
  pmap_ok (pseq_ok hf hg)

theorem precededP_ok {τ α β : Type} {f : LP τ α} {g : LP τ β} {i i1 i2 : List τ}
    {a : α} {b : β} (hf : f i = .ok (i1, a)) (hg : g i1 = .ok (i2, b)) :
    precededP f g i = .ok (i2, b) :=
  pmap_ok (pseq_ok hf hg)

theorem optP_some {τ α : Type} {f : LP τ α} {i r : List τ} {v : α}
    (h : f i = .ok (r, v)) : optP f i = .ok (r, some v) := by
  simp [optP, h]

theorem optP_none {τ α : Type} {f : LP τ α} {i : List τ} {e : VErr (List τ)}
    (h : f i = .error (.err e)) : optP f i = .ok (i, none) := by
  simp [optP, h]

/-! ### Digit runs and `is_not` runs -/

theorem takeWhile_append_eq {α : Type} (p : α → Bool) (xs rest : List α)
    (hxs : ∀ x ∈ xs, p x = true) (hrest : ∀ y, rest.head? = some y → p y = false) :
    (xs ++ rest).takeWhile p = xs := by
  induction xs with
  | nil =>
    cases rest with
    | nil => rfl
    | cons y ys => simp [List.takeWhile_cons, hrest y rfl]
  | cons x xs ih =>
    simp only [List.cons_append, List.takeWhile_cons, hxs x (by simp), if_true,
      List.cons.injEq, true_and]
    exact ih (fun z hz => hxs z (by simp [hz]))

theorem is_notC_ok (bad xs rest : List Char) (hne : xs ≠ [])
    (hxs : ∀ x ∈ xs, bad.contains x = false)
    (hrest : ∀ y, rest.head? = some y → bad.contains y = true) :
    is_notC bad (xs ++ rest) = .ok (rest, xs) := by
  have ht : (xs ++ rest).takeWhile (fun c => !(bad.contains c)) = xs :=
    takeWhile_append_eq _ _ _
      (fun x hx => by simp only [hxs x hx, Bool.not_false])
      (fun y hy => by simp only [hrest y hy, Bool.not_true])
  simp only [is_notC, ht, if_neg hne]
  rw [List.drop_left]

theorem digit1C_ok (xs rest : List Char) (hne : xs ≠ [])
    (hxs : ∀ x ∈ xs, isDigitC x = true)
    (hrest : ∀ y, rest.head? = some y → isDigitC y = false) :
    digit1C (xs ++ rest) = .ok (rest, xs) := by
  have ht : (xs ++ rest).takeWhile isDigitC = xs := takeWhile_append_eq _ _ _ hxs hrest
  simp only [digit1C, ht, if_neg hne]
  rw [List.drop_left]

/-! ### Decimal rendering -/

theorem digitChar_isDigit (d : Nat) (h : d < 10) : isDigitC (digitChar d) = true := by
  interval_cases d <;> decide

theorem digitChar_toNat (d : Nat) (h : d < 10) : (digitChar d).toNat - 48 = d := by
  interval_cases d <;> decide

theorem parseNat_append_digit (ds : List Char) (c : Char) :
    parseNat (ds ++ [c]) = 10 * parseNat ds + (c.toNat - 48) := by
  simp [parseNat, List.foldl_append]

theorem natDigitsAux_spec (fuel : Nat) : ∀ n < fuel,
    natDigitsAux fuel n ≠ [] ∧ (∀ c ∈ natDigitsAux fuel n, isDigitC c = true) ∧
      parseNat (natDigitsAux fuel n) = n := by
  induction fuel with
  | zero => intro n hn; omega
  | succ fuel ih =>
    intro n hn
    by_cases h10 : n < 10
    · refine ⟨by simp [natDigitsAux, h10], ?_, ?_⟩
      · intro c hc
        simp only [natDigitsAux, if_pos h10, List.mem_singleton] at hc
        subst hc; exact digitChar_isDigit n h10
      · simp only [natDigitsAux, if_pos h10]
        show parseNat ([] ++ [digitChar n]) = n
        rw [parseNat_append_digit]
        have : parseNat [] = 0 := rfl
        rw [this, digitChar_toNat n h10]
        omega
    · have hdiv : n / 10 < fuel := by
        have h1 : n / 10 < n := Nat.div_lt_self (by omega) (by omega)
        omega
      obtain ⟨hne, hdig, hval⟩ := ih (n / 10) hdiv
      refine ⟨by simp [natDigitsAux, h10], ?_, ?_⟩
      · intro c hc
        simp only [natDigitsAux, if_neg h10, List.mem_append, List.mem_singleton] at hc
        rcases hc with hc | hc
        · exact hdig c hc
        · subst hc; exact digitChar_isDigit (n % 10) (Nat.mod_lt n (by omega))
      · simp only [natDigitsAux, if_neg h10]
        rw [parseNat_append_digit, hval, digitChar_toNat (n % 10) (Nat.mod_lt n (by omega))]
        omega

theorem natDigits_ne_nil (n : Nat) : natDigits n ≠ [] :=
  (natDigitsAux_spec (n + 1) n (by omega)).1

theorem natDigits_digits (n : Nat) : ∀ c ∈ natDigits n, isDigitC c = true :=
  (natDigitsAux_spec (n + 1) n (by omega)).2.1

theorem parseNat_natDigits (n : Nat) : parseNat (natDigits n) = n :=
  (natDigitsAux_spec (n + 1) n (by omega)).2.2

/-! ### Field-level success lemmas -/

theorem charC_ok (c : Char) (rest : List Char) : charC c (c :: rest) = .ok (rest, c) := by
  simp [charC]

theorem tabC_ok (rest : List Char) : tabC ('\t' :: rest) = .ok (rest, '\t') :=
  charC_ok '\t' rest

theorem string_str_ok (name rest : List Char) (hne : name ≠ [])
    (hgood : ∀ c ∈ name, goodChar c)
    (hrest : ∀ y, rest.head? = some y → y = '\t' ∨ y = '\r' ∨ y = '\n') :
    string_str (name ++ rest) = .ok (rest, String.mk name) := by
  have h1 : is_notC ['\t', '\r', '\n'] (name ++ rest) = .ok (rest, name) := by
    apply is_notC_ok _ _ _ hne
    · intro x hx
      obtain ⟨h1, h2, h3⟩ := hgood x hx
      simp [h1, h2, h3]
    · intro y hy
      rcases hrest y hy with h | h | h <;> simp [h]
  exact contextP_ok (pmap_ok h1)

theorem uint64_str_ok (n : Nat) (rest : List Char) (hn : n < 2 ^ 64)
    (hrest : ∀ y, rest.head? = some y → isDigitC y = false) :
    uint64_str (natDigits n ++ rest) = .ok (rest, n) := by
  have h1 : digit1C (natDigits n ++ rest) = .ok (rest, natDigits n) :=
    digit1C_ok _ _ (natDigits_ne_nil n) (natDigits_digits n) hrest
  have h2 : parseU64 (natDigits n) = some n := by
    simp only [parseU64, parseNat_natDigits]
    exact if_pos hn
  apply contextP_ok
  simp [map_res, h1, h2]

theorem uint8_str_ok (n : Nat) (rest : List Char) (hn : n < 2 ^ 8)
    (hrest : ∀ y, rest.head? = some y → isDigitC y = false) :
    uint8_str (natDigits n ++ rest) = .ok (rest, n) := by
  have h1 : digit1C (natDigits n ++ rest) = .ok (rest, natDigits n) :=
    digit1C_ok _ _ (natDigits_ne_nil n) (natDigits_digits n) hrest
  have h2 : parseU8 (natDigits n) = some n := by
    simp only [parseU8, parseNat_natDigits]
    exact if_pos hn
  apply contextP_ok
  simp [map_res, h1, h2]

theorem strand_str_ok (st : Strand) (rest : List Char) :
    strand_str (st.toChar :: rest) = .ok (rest, st) := by
  cases st <;> rfl

/-- A tab-terminated free-text column of the record rule. -/
theorem strField_ok (lbl : String) (name rest : List Char) (hne : name ≠ [])
    (hgood : ∀ c ∈ name, goodChar c) :
    contextP lbl (terminatedP string_str tabC) (name ++ '\t' :: rest) =
      .ok (rest, String.mk name) :=
  contextP_ok (terminatedP_ok
    (string_str_ok name ('\t' :: rest) hne hgood
      (fun y hy => Or.inl (Option.some.inj hy).symm))
    (tabC_ok rest))

/-- A tab-terminated 64-bit numeric column of the record rule. -/
theorem u64Field_ok (lbl : String) (n : Nat) (rest : List Char) (hn : n < 2 ^ 64) :
    contextP lbl (terminatedP uint64_str tabC) (natDigits n ++ '\t' :: rest) = .ok (rest, n) :=
  contextP_ok (terminatedP_ok
    (uint64_str_ok n ('\t' :: rest) hn
      (fun y hy => by rw [← Option.some.inj hy]; decide))
    (tabC_ok rest))

/-- The tab-terminated strand column of the record rule. -/
theorem strandField_ok (lbl : String) (st : Strand) (rest : List Char) :
    contextP lbl (terminatedP strand_str tabC) (st.toChar :: '\t' :: rest) = .ok (rest, st) :=
  contextP_ok (terminatedP_ok (strand_str_ok st ('\t' :: rest)) (tabC_ok rest))

/-- The mapping-quality column: not tab-terminated, stops before the
(unconsumed) suffix. -/
theorem mqField_ok (lbl : String) (n : Nat) (rest : List Char) (hn : n < 2 ^ 8)
    (hrest : ∀ y, rest.head? = some y → isDigitC y = false) :
    contextP lbl uint8_str (natDigits n ++ rest) = .ok (rest, n) :=
  contextP_ok (uint8_str_ok n rest hn hrest)

/-! ### The optional-fields rule on rendered field lists -/

theorem sam_fields_str_nil : sam_fields_str [] = .ok ([], []) := rfl

theorem sepLoop_tail (tail : List Char) (acc : List String) (fuel : Nat)
    (htail : tail = [] ∨ tail = ['\t']) (hfuel : 1 ≤ fuel) :
    sepLoop tabC string_str fuel tail acc = .ok (tail, acc) := by
  obtain ⟨k, rfl⟩ : ∃ k, fuel = k + 1 := ⟨fuel - 1, by omega⟩
  rcases htail with rfl | rfl <;> rfl

theorem sepLoop_join : ∀ (fs : List String) (tail : List Char) (acc : List String) (fuel : Nat),
    fs ≠ [] → (∀ f ∈ fs, GoodName f) → (tail = [] ∨ tail = ['\t']) →
    (tabJoin fs).length + tail.length + 1 ≤ fuel →
    sepLoop tabC string_str fuel ('\t' :: (tabJoin fs ++ tail)) acc = .ok (tail, acc ++ fs)
  | [], _, _, _, hfs, _, _, _ => absurd rfl hfs
  | [f], tail, acc, fuel, _, hgood, htail, hfuel => by
    obtain ⟨hne, hchars⟩ := hgood f (by simp)
    have hlen : 1 ≤ f.data.length := List.length_pos.mpr hne
    have hjoin : tabJoin [f] = f.data := rfl
    rw [hjoin] at hfuel
    obtain ⟨k, rfl⟩ : ∃ k, fuel = k + 1 := ⟨fuel - 1, by omega⟩
    have hs : string_str (f.data ++ tail) = .ok (tail, f) := by
      have := string_str_ok f.data tail hne hchars
        (fun y hy => by
          rcases htail with rfl | rfl
          · simp at hy
          · exact Or.inl (Option.some.inj hy).symm)
      simpa using this
    simp only [sepLoop, hjoin, tabC_ok, hs]
    rw [if_neg (by simp), if_neg (by simp only [List.length_cons, List.length_append]; omega)]
    exact sepLoop_tail tail (acc ++ [f]) k htail (by omega)
  | f :: g :: fs, tail, acc, fuel, _, hgood, htail, hfuel => by
    obtain ⟨hne, hchars⟩ := hgood f (by simp)
    have hlen : 1 ≤ f.data.length := List.length_pos.mpr hne
    have hjoin : tabJoin (f :: g :: fs) = f.data ++ '\t' :: tabJoin (g :: fs) := rfl
    rw [hjoin] at hfuel
    simp only [List.length_append, List.length_cons] at hfuel
    obtain ⟨k, rfl⟩ : ∃ k, fuel = k + 1 := ⟨fuel - 1, by omega⟩
    have hs : string_str (f.data ++ '\t' :: (tabJoin (g :: fs) ++ tail)) =
        .ok ('\t' :: (tabJoin (g :: fs) ++ tail), f) :=
      string_str_ok f.data _ hne hchars (fun y hy => Or.inl (Option.some.inj hy).symm)
    have hrec := sepLoop_join (g :: fs) tail (acc ++ [f]) k (by simp)
      (fun x hx => hgood x (by simp [hx])) htail (by omega)
    simp only [sepLoop, hjoin, List.append_assoc, List.cons_append, tabC_ok, hs]
    rw [if_neg (by simp), if_neg (by simp only [List.length_cons, List.length_append]; omega)]
    rw [hrec]
    simp

theorem sam_fields_str_join (fs : List String) (tail : List Char)
    (hfs : fs ≠ []) (hgood : ∀ f ∈ fs, GoodName f) (htail : tail = [] ∨ tail = ['\t']) :
    sam_fields_str (tabJoin fs ++ tail) = .ok (tail, fs) := by
  match fs, hfs with
  | [f], _ =>
    obtain ⟨hne, hchars⟩ := hgood f (by simp)
    have hlen : 1 ≤ f.data.length := List.length_pos.mpr hne
    have hjoin : tabJoin [f] = f.data := rfl
    have hs : string_str (f.data ++ tail) = .ok (tail, f) := by
      have := string_str_ok f.data tail hne hchars
        (fun y hy => by
          rcases htail with rfl | rfl
          · simp at hy
          · exact Or.inl (Option.some.inj hy).symm)
      simpa using this
    simp only [sam_fields_str, separated_listP, hjoin, hs]
    rw [if_neg (by simp only [List.length_append]; omega)]
    rw [sepLoop_tail tail [f] (tail.length + 1) htail (by omega)]
  | f :: g :: fs, _ =>
    obtain ⟨hne, hchars⟩ := hgood f (by simp)
    have hlen : 1 ≤ f.data.length := List.length_pos.mpr hne
    have hjoin : tabJoin (f :: g :: fs) = f.data ++ '\t' :: tabJoin (g :: fs) := rfl
    have hs : string_str (f.data ++ '\t' :: (tabJoin (g :: fs) ++ tail)) =
        .ok ('\t' :: (tabJoin (g :: fs) ++ tail), f) :=
      string_str_ok f.data _ hne hchars (fun y hy => Or.inl (Option.some.inj hy).symm)
    have hrec := sepLoop_join (g :: fs) tail [f]
      (('\t' :: (tabJoin (g :: fs) ++ tail)).length + 1) (by simp)
      (fun x hx => hgood x (by simp [hx])) htail
      (by simp only [List.length_cons, List.length_append]; omega)
    simp only [sam_fields_str, separated_listP, hjoin, List.append_assoc, List.cons_append, hs]
    rw [if_neg (by simp only [List.length_cons, List.length_append]; omega)]
    rw [hrec]
    simp

/-! ### The record rule on rendered records -/

/-- Workhorse: the record rule on the twelve rendered core fields
followed by an arbitrary suffix whose first character is not a digit,
given the behaviour of the optional-fields part and of the optional
trailing newline on that suffix. -/
theorem paf_str_core (q t : Locus) (st : Strand) (nm al mq : Nat)
    (suffix rem rem2 : List Char) (flds : List String) (onl : Option Char)
    (hq : GoodLocus q) (ht : GoodLocus t)
    (hnm : nm < 2 ^ 64) (hal : al < 2 ^ 64) (hmq : mq < 2 ^ 8)
    (hsuf : ∀ y, suffix.head? = some y → isDigitC y = false)
    (hfl : precededP (optP tabC) sam_fields_str suffix = .ok (rem, flds))
    (hnl : optP newlineC rem = .ok (rem2, onl)) :
    paf_str (coreFields q st t nm al mq ++ suffix) =
      .ok (rem2, PAF.new q st t nm al mq flds) := by
  obtain ⟨⟨hqn, hqg⟩, hql, hqs, hqe⟩ := hq
  obtain ⟨⟨htn, htg⟩, htl, hts, hte⟩ := ht
  have e0 : coreFields q st t nm al mq ++ suffix =
      q.name.data ++ '\t' :: (natDigits q.length ++ '\t' :: (natDigits q.start ++ '\t' ::
        (natDigits q.end_ ++ '\t' :: (st.toChar :: '\t' :: (t.name.data ++ '\t' ::
          (natDigits t.length ++ '\t' :: (natDigits t.start ++ '\t' ::
            (natDigits t.end_ ++ '\t' :: (natDigits nm ++ '\t' ::
              (natDigits al ++ '\t' :: (natDigits mq ++ suffix))))))))))) := by
    simp [coreFields, Locus.display]
  rw [show paf_str = paf_str from rfl]
  unfold paf_str
  rw [e0]
  exact pmap_ok
    (pseq_ok (strField_ok _ q.name.data _ hqn hqg)
      (pseq_ok (u64Field_ok _ q.length _ hql)
        (pseq_ok (u64Field_ok _ q.start _ hqs)
          (pseq_ok (u64Field_ok _ q.end_ _ hqe)
            (pseq_ok (strandField_ok _ st _)
              (pseq_ok (strField_ok _ t.name.data _ htn htg)
                (pseq_ok (u64Field_ok _ t.length _ htl)
                  (pseq_ok (u64Field_ok _ t.start _ hts)
                    (pseq_ok (u64Field_ok _ t.end_ _ hte)
                      (pseq_ok (u64Field_ok _ nm _ hnm)
                        (pseq_ok (u64Field_ok _ al _ hal)
                          (pseq_ok (mqField_ok _ mq suffix hmq hsuf)
                            (pseq_ok (contextP_ok hfl) hnl)))))))))))))

/-! ### Helpers shared by the claim theorems -/

/-- UTF-8/ASCII encoding of a character list whose characters are all
ASCII: each character becomes the byte holding its code. -/
def amap (cs : List Char) : List Nat := cs.map Char.toNat

/-- Every character of the input is ASCII. -/
abbrev Ascii (cs : List Char) : Prop := ∀ c ∈ cs, c.toNat < 128

/-- Whether a diagnostic is of the empty-input class. -/
def Error.isEmptyClass : Error → Bool
  | .Empty => true
  | .EmptyLine _ => true
  | _ => false

theorem splitNlAux_snd_ne_nil (cs : List Char) (h : '\n' ∈ cs) :
    (splitNlAux cs).2 ≠ [] := by
  induction cs with
  | nil => simp at h
  | cons c cs ih =>
    by_cases hc : c = '\n'
    · simp [splitNlAux, hc]
    · have : '\n' ∈ cs := by
        rcases List.mem_cons.mp h with h1 | h1
        · exact absurd h1.symm hc
        · exact h1
      simp [splitNlAux, hc]
      exact ih this

theorem rustLines_ne_nil (cs : List Char) (h : cs ≠ []) : rustLines cs ≠ [] := by
  unfold rustLines
  rw [if_neg h]
  by_cases hl : cs.getLast? = some '\n'
  · have hmem : '\n' ∈ cs := List.mem_of_getLast?_eq_some hl
    have hsnd := splitNlAux_snd_ne_nil cs hmem
    simp only [hl, if_pos]
    simp only [ne_eq, List.map_eq_nil_iff]
    cases hsn : (splitNlAux cs).2 with
    | nil => exact absurd hsn hsnd
    | cons p ps => simp [List.dropLast]
  · simp [hl]

/-! ### C9: the empty-input diagnostic -/

/-- C9: converting a parse failure on empty input yields the
empty-input diagnostic (`Empty`, or `EmptyLine` when a line number is
tracked) regardless of the failure's contents — no offset computation is
involved — and any non-empty input yields a line-failure diagnostic,
never an empty-input one. -/
theorem c9_empty_input_distinction :
    (∀ (e : VErr (List Char)), convert_error_str [] e none = .Empty) ∧
    (∀ (e : VErr (List Char)) (n : Nat), convert_error_str [] e (some n) = .EmptyLine n) ∧
    (∀ (input : List Char) (e : VErr (List Char)) (lno : Option Nat), input ≠ [] →
      Error.isEmptyClass (convert_error_str input e lno) = false) := by
  refine ⟨fun e => rfl, fun e n => rfl, ?_⟩
  intro input e lno hne
  have hl : rustLines input ≠ [] := rustLines_ne_nil input hne
  unfold convert_error_str
  have hce : check_empty_input lno (rustLines input) = .ok () := by
    unfold check_empty_input
    rw [if_neg (by simp [hl])]
  simp only [hce]
  cases e <;> cases lno <;> rfl

/-- Witness for C9 at a concrete non-empty input. -/
theorem c9_witness :
    Error.isEmptyClass (convert_error_str ['x'] [] none) = false :=
  c9_empty_input_distinction.2.2 ['x'] [] none (by decide)

/-! ### C6: caret-column arithmetic -/

/-- C6: for every line, failure column and detail list, the rendered
caret line starts with exactly `column - N + 4 * N` spaces followed by
the caret, where `N` is the number of tabs among the first `column`
characters of the line (display width four). -/
theorem c6_caret_column (line : String) (column : Nat) (details : List String) :
    (join_parse_details line column details).data =
      List.replicate
        (column - ((line.data.take column).filter (fun c => c == '\t')).length
          + 4 * ((line.data.take column).filter (fun c => c == '\t')).length) ' '
        ++ '^' :: ' ' :: (String.intercalate " " details).data := by
  unfold join_parse_details
  rw [String.data_append, String.data_append, List.append_assoc]
  have h4 : ∀ k : Nat, k * 4 = 4 * k := fun k => Nat.mul_comm k 4
  rw [h4]
  rfl

/-- Witness for C6 at a concrete tab-containing line (N = 1). -/
theorem c6_witness :
    (join_parse_details "ab\tcd" 4 ["in column: x"]).data =
      List.replicate 7 ' ' ++ '^' :: ' ' :: (String.intercalate " " ["in column: x"]).data := by
  have h := c6_caret_column "ab\tcd" 4 ["in column: x"]
  simpa using h

/-! ### C7: offsets at line boundaries -/

/-- Counterexample to C7 as stated: in the two-line input `"ab\ncd"`
(lines `"ab"` and `"cd"`), the absolute offset 2 lands exactly on the
line boundary (the terminator of the first line); `find_offset`
attributes it to line 0 at column 2 — the end of the previous line — and
not to the start of the next line `(1, 0)`. -/
theorem c7_counterexample :
    find_offset 2 ["ab".data, "cd".data] = (0, 2) ∧
    find_offset 2 ["ab".data, "cd".data] ≠ (1, 0) := by
  constructor <;> decide

/-- C7 amended: an offset equal to the length of a line (pointing at its
terminator) is attributed to that line at a column equal to the line
length, i.e. to the end of that line; only an offset strictly past the
terminator moves on, so the first offset attributed to the following
line is `length + 1`, at column 0. -/
theorem c7_boundary_amended (l l2 : List Char) (rest : List (List Char)) :
    find_offset l.length (l :: rest) = (0, l.length) ∧
    find_offset (l.length + 1) (l :: l2 :: rest) = (1, 0) := by
  constructor
  · unfold find_offset find_offsetAux
    rw [if_pos (Nat.le_refl _)]
  · unfold find_offset
    rw [find_offsetAux]
    rw [if_neg (by omega)]
    have harith : l.length + 1 - l.length - 1 = 0 := by omega
    rw [harith, find_offsetAux]
    rw [if_pos (Nat.zero_le _)]

/-- Witness for C7 (amended) at a concrete two-line input. -/
theorem c7_witness : find_offset ("ab".data.length + 1) ["ab".data, "cd".data] = (1, 0) :=
  (c7_boundary_amended "ab".data "cd".data []).2

/-! ### C2: the free-text rule on an empty run -/

/-- Counterexample to C2 as stated: on input whose first character is a
tab (and likewise on empty input) the free-text rule fails with an
`IsNot` error — it does not succeed with the empty string. -/
theorem c2_counterexample :
    string_str ['\t'] =
      .error (.err [((['\t'] : List Char), .vnom .isNot),
        (['\t'], .vctx "expected an utf-8 string")]) ∧
    string_str [] =
      .error (.err [(([] : List Char), .vnom .isNot),
        ([], .vctx "expected an utf-8 string")]) := by
  constructor <;> rfl

/-- C2 amended: the free-text rule rejects a zero-length run.  On empty
input, or on input whose first character is tab, carriage return or
newline, `string_str` / `string_u8` fail with an `IsNot`-class error
(wrapped in the utf-8-string context); consequently a locus or PAF name
field must be non-empty. -/
theorem c2_empty_run_rejected :
    (∀ (cs : List Char),
      cs.head? = none ∨ cs.head? = some '\t' ∨ cs.head? = some '\r' ∨ cs.head? = some '\n' →
      string_str cs =
        .error (.err [(cs, .vnom .isNot), (cs, .vctx "expected an utf-8 string")])) ∧
    (∀ (bs : List Nat),
      bs.head? = none ∨ bs.head? = some 9 ∨ bs.head? = some 13 ∨ bs.head? = some 10 →
      string_u8 bs =
        .error (.err [(bs, .vnom .isNot), (bs, .vctx "expected an utf-8 string")])) := by
  constructor
  · intro cs h
    have ht : cs.takeWhile (fun c => !((['\t', '\r', '\n'] : List Char).contains c)) = [] := by
      cases cs with
      | nil => rfl
      | cons c cs' =>
        rcases h with h | h | h | h
        · simp at h
        all_goals
          rw [List.head?_cons, Option.some.injEq] at h
          subst h
          rfl
    simp only [string_str, contextP, pmap, is_notC, ht]
    rfl
  · intro bs h
    have ht : bs.takeWhile (fun b => !(([9, 13, 10] : List Nat).contains b)) = [] := by
      cases bs with
      | nil => rfl
      | cons b bs' =>
        rcases h with h | h | h | h
        · simp at h
        all_goals
          rw [List.head?_cons, Option.some.injEq] at h
          subst h
          rfl
    simp only [string_u8, contextP, map_res, is_notB, ht]
    rfl

/-- Witness for C2 (amended) at concrete inputs. -/
theorem c2_witness :
    string_str ['\r', 'x'] =
      .error (.err [((['\r', 'x'] : List Char), .vnom .isNot),
        (['\r', 'x'], .vctx "expected an utf-8 string")]) ∧
    string_u8 [9] =
      .error (.err [(([9] : List Nat), .vnom .isNot),
        ([9], .vctx "expected an utf-8 string")]) :=
  ⟨c2_empty_run_rejected.1 ['\r', 'x'] (by decide),
   c2_empty_run_rejected.2 [9] (by decide)⟩

/-! ### C4: 8-bit overflow -/

/-- C4: an 8-bit digit run whose value does not fit in eight bits makes
`uint8_str` fail with a `MapRes` (overflow-class) error positioned at
the start of the run and carrying the label `expected an unsigned 8-bit
integer`; it never yields a wrapped value.  A run of zero digits also
fails (with a `Digit` error, same label) rather than defaulting.  The
byte-input rule behaves identically on the spec's example `"123456"`. -/
theorem c4_uint8_overflow :
    (∀ (ds rest : List Char), ds ≠ [] → (∀ c ∈ ds, isDigitC c = true) →
      (∀ y, rest.head? = some y → isDigitC y = false) → 2 ^ 8 ≤ parseNat ds →
      uint8_str (ds ++ rest) =
        .error (.err [(ds ++ rest, .vnom .mapRes),
          (ds ++ rest, .vctx "expected an unsigned 8-bit integer")])) ∧
    (∀ (cs : List Char), (∀ y, cs.head? = some y → isDigitC y = false) →
      uint8_str cs =
        .error (.err [(cs, .vnom .digit),
          (cs, .vctx "expected an unsigned 8-bit integer")])) ∧
    uint8_u8 (amap "123456\tone".data) =
      .error (.err [(amap "123456\tone".data, .vnom .mapRes),
        (amap "123456\tone".data, .vctx "expected an unsigned 8-bit integer")]) := by
  refine ⟨?_, ?_, by rfl⟩
  · intro ds rest hne hds hrest hval
    have h1 : digit1C (ds ++ rest) = .ok (rest, ds) := digit1C_ok ds rest hne hds hrest
    have h2 : parseU8 ds = none := by
      simp only [parseU8]
      rw [if_neg (by omega)]
    simp [uint8_str, contextP, map_res, h1, h2]
  · intro cs hcs
    have ht : cs.takeWhile isDigitC = [] := by
      cases cs with
      | nil => rfl
      | cons c cs' =>
        rw [List.takeWhile_cons, hcs c rfl]
        rfl
    simp [uint8_str, contextP, map_res, digit1C, ht]

/-- Witness for C4 at the spec's example `"123456"` followed by a tab. -/
theorem c4_witness :
    uint8_str ("123456".data ++ "\tone".data) =
      .error (.err [("123456".data ++ "\tone".data, .vnom .mapRes),
        ("123456".data ++ "\tone".data, .vctx "expected an unsigned 8-bit integer")]) :=
  c4_uint8_overflow.1 "123456".data "\tone".data (by decide) (by decide) (by decide) (by decide)

/-! ### Optional-fields and trailing-newline instances -/

theorem optFields_nil : precededP (optP tabC) sam_fields_str [] = .ok ([], []) := rfl

theorem optFields_tab : precededP (optP tabC) sam_fields_str ['\t'] = .ok ([], []) := rfl

theorem optFields_nl : precededP (optP tabC) sam_fields_str ['\n'] = .ok (['\n'], []) := rfl

theorem optFields_join (fs : List String) (tail : List Char) (hfs : fs ≠ [])
    (hgood : ∀ f ∈ fs, GoodName f) (htail : tail = [] ∨ tail = ['\t']) :
    precededP (optP tabC) sam_fields_str ('\t' :: (tabJoin fs ++ tail)) = .ok (tail, fs) :=
  precededP_ok (optP_some (tabC_ok _)) (sam_fields_str_join fs tail hfs hgood htail)

theorem optNl_nil : optP newlineC [] = .ok ([], none) := rfl

theorem optNl_tab : optP newlineC ['\t'] = .ok (['\t'], none) := rfl

theorem optNl_nl : optP newlineC ['\n'] = .ok ([], some '\n') := rfl

/-! ### The locus rule on rendered loci -/

theorem locus_str_core (l : Locus) (suffix : List Char) (hl : GoodLocus l)
    (hsuf : ∀ y, suffix.head? = some y → isDigitC y = false) :
    locus_str (l.display ++ suffix) = .ok (suffix, l) := by
  obtain ⟨⟨hn, hg⟩, hlen, hs, he⟩ := hl
  have e0 : l.display ++ suffix =
      l.name.data ++ '\t' :: (natDigits l.length ++ '\t' ::
        (natDigits l.start ++ '\t' :: (natDigits l.end_ ++ suffix))) := by
    simp [Locus.display]
  unfold locus_str
  rw [e0]
  exact pmap_ok
    (pseq_ok (strField_ok _ l.name.data _ hn hg)
      (pseq_ok (u64Field_ok _ l.length _ hlen)
        (pseq_ok (u64Field_ok _ l.start _ hs)
          (contextP_ok (uint64_str_ok l.end_ suffix he hsuf)))))

/-! ### The all-consuming entry points -/

theorem runFromStr_of_ok {α : Type} {f : LP Char α} {s : List Char} {v : α}
    (h : f s = .ok ([], v)) : runFromStr f s = .ok v := by
  unfold runFromStr
  simp [cutP, all_consumingP, h]

theorem runFromStr_rem_ne {α : Type} {f : LP Char α} {s r : List Char} {v : α}
    (h : f s = .ok (r, v)) (hr : r ≠ []) : isOkE (runFromStr f s) = false := by
  unfold runFromStr
  have hlen : ¬ r.length = 0 := by simp [List.length_eq_zero, hr]
  simp [cutP, all_consumingP, h, hlen, isOkE]

theorem runFromStr_of_err {α : Type} {f : LP Char α} {s : List Char} {e : PErr (List Char)}
    (h : f s = .error e) : isOkE (runFromStr f s) = false := by
  unfold runFromStr
  cases e <;> simp [cutP, all_consumingP, h, isOkE]

theorem runFromStr_ok_iff {α : Type} (f : LP Char α) (s : List Char) (v : α) :
    runFromStr f s = .ok v ↔ f s = .ok ([], v) := by
  constructor
  · intro h
    cases hf : f s with
    | ok rv =>
      obtain ⟨r, w⟩ := rv
      by_cases hr : r = []
      · subst hr
        have h2 := runFromStr_of_ok hf
        rw [h2] at h
        injection h with h3
        subst h3
        rfl
      · have h2 := runFromStr_rem_ne hf hr
        rw [h, isOkE] at h2
        cases h2
    | error e =>
      have h2 := runFromStr_of_err hf
      rw [h, isOkE] at h2
      cases h2
  · exact runFromStr_of_ok

/-! ### C8: the tab after mapping quality is optional -/

/-- C8: twelve rendered core fields with no tab after mapping quality
decode to a record with no optional fields, and the same twelve fields
followed by one trailing tab and nothing else also decode successfully
to the empty optional-field sequence. -/
theorem c8_optional_tab (q t : Locus) (st : Strand) (nm al mq : Nat)
    (hq : GoodLocus q) (ht : GoodLocus t)
    (hnm : nm < 2 ^ 64) (hal : al < 2 ^ 64) (hmq : mq < 2 ^ 8) :
    paf_str (coreFields q st t nm al mq) = .ok ([], PAF.new q st t nm al mq []) ∧
    paf_str (coreFields q st t nm al mq ++ ['\t']) = .ok ([], PAF.new q st t nm al mq []) := by
  constructor
  · have h := paf_str_core q t st nm al mq [] [] [] [] none hq ht hnm hal hmq
      (fun y hy => by simp at hy) optFields_nil optNl_nil
    simpa using h
  · exact paf_str_core q t st nm al mq ['\t'] [] [] [] none hq ht hnm hal hmq
      (fun y hy => by cases hy; rfl) optFields_tab optNl_nil

/-- Witness for C8 at the spec's concrete record. -/
theorem c8_witness :
    paf_str (coreFields (Locus.new "seqid" 10 0 10) .Plus (Locus.new "seqid2" 10 0 10) 1 1 1
        ++ ['\t']) =
      .ok ([], PAF.new (Locus.new "seqid" 10 0 10) .Plus (Locus.new "seqid2" 10 0 10) 1 1 1 []) :=
  (c8_optional_tab (Locus.new "seqid" 10 0 10) (Locus.new "seqid2" 10 0 10) .Plus 1 1 1
    (by decide) (by decide) (by decide) (by decide) (by decide)).2

/-! ### C10: a trailing tab after optional fields is rejected -/

/-- C10: on twelve valid core fields, a tab, nonempty optional fields
and a final trailing tab, the record rule stops before the trailing
separator tab (leaving it unconsumed, with the fields it read), and the
all-consuming entry point therefore rejects the line. -/
theorem c10_trailing_tab_rejected (q t : Locus) (st : Strand) (nm al mq : Nat)
    (opts : List String) (hq : GoodLocus q) (ht : GoodLocus t)
    (hnm : nm < 2 ^ 64) (hal : al < 2 ^ 64) (hmq : mq < 2 ^ 8)
    (hopts : opts ≠ []) (hgood : ∀ f ∈ opts, GoodName f) :
    paf_str (coreFields q st t nm al mq ++ '\t' :: (tabJoin opts ++ ['\t'])) =
      .ok (['\t'], PAF.new q st t nm al mq opts) ∧
    isOkE (PAF.from_str (coreFields q st t nm al mq ++ '\t' :: (tabJoin opts ++ ['\t']))) =
      false := by
  have hparse := paf_str_core q t st nm al mq ('\t' :: (tabJoin opts ++ ['\t'])) ['\t'] ['\t']
    opts none hq ht hnm hal hmq (fun y hy => by cases hy; rfl)
    (optFields_join opts ['\t'] hopts hgood (Or.inr rfl)) optNl_tab
  exact ⟨hparse, runFromStr_rem_ne hparse (by simp)⟩

/-- Witness for C10 at a concrete line ending in `"\t1\tone\t"`. -/
theorem c10_witness :
    isOkE (PAF.from_str (coreFields (Locus.new "seqid" 10 0 10) .Plus
      (Locus.new "seqid2" 10 0 10) 1 1 1 ++ '\t' :: (tabJoin ["one"] ++ ['\t']))) = false :=
  (c10_trailing_tab_rejected (Locus.new "seqid" 10 0 10) (Locus.new "seqid2" 10 0 10) .Plus
    1 1 1 ["one"] (by decide) (by decide) (by decide) (by decide) (by decide) (by decide)
    (by decide)).2

/-! ### C3: rendering and re-parsing records -/

/-- Counterexample to C3 as stated: a record with zero optional fields
whose query name is empty renders to a line beginning with a tab, and
re-parsing that rendering with the full-record rule fails instead of
reproducing the record. -/
theorem c3_counterexample :
    (PAF.new (Locus.new "" 10 0 10) .Plus (Locus.new "t" 10 0 10) 1 1 1 []).fields.length = 0 ∧
    isOkE (paf_str (PAF.display
      (PAF.new (Locus.new "" 10 0 10) .Plus (Locus.new "t" 10 0 10) 1 1 1 []))) = false := by
  constructor <;> rfl

/-- C3 amended: for a record whose names and optional fields are
nonempty and free of tab/CR/LF and whose numbers fit their widths,
rendering then re-parsing reproduces the record exactly when the
optional-field count is 0 or at least 2 (hence re-rendering such a
parsed canonical line reproduces the line); a record with exactly one
optional field renders identically to the same record with no optional
fields — no trailing tab-field section — so its rendering parses back to
the zero-field record and the one-field record does not round-trip. -/
theorem c3_round_trip (p : PAF) (hp : GoodPAF p) :
    (p.fields.length = 0 ∨ 2 ≤ p.fields.length → paf_str (PAF.display p) = .ok ([], p)) ∧
    (p.fields.length = 1 →
      PAF.display p = PAF.display (PAF.new p.query p.strand p.target p.nmatch p.alnlen p.mq []) ∧
      paf_str (PAF.display p) =
        .ok ([], PAF.new p.query p.strand p.target p.nmatch p.alnlen p.mq [])) := by
  obtain ⟨q, st, t, nm, al, mq, fl⟩ := p
  obtain ⟨hq, ht, hnm, hal, hmq, hflds⟩ := hp
  dsimp only at hq ht hnm hal hmq hflds ⊢
  have hdisp0 : PAF.display (PAF.new q st t nm al mq []) = coreFields q st t nm al mq := by
    unfold PAF.display
    dsimp only [PAF.new]
    rw [if_neg (by decide)]
  have hcore0 : paf_str (coreFields q st t nm al mq) = .ok ([], PAF.new q st t nm al mq []) := by
    have h := paf_str_core q t st nm al mq [] [] [] [] none hq ht hnm hal hmq
      (fun y hy => by simp at hy) optFields_nil optNl_nil
    simpa using h
  constructor
  · rintro (h0 | h2)
    · have hfl : fl = [] := List.length_eq_zero.mp h0
      subst hfl
      show paf_str (PAF.display (PAF.new q st t nm al mq [])) =
        .ok ([], PAF.new q st t nm al mq [])
      rw [hdisp0]
      exact hcore0
    · have hne : fl ≠ [] := by
        intro hnil
        rw [hnil] at h2
        simp at h2
      have hgt : fl.length > 1 := by omega
      show paf_str (PAF.display (PAF.new q st t nm al mq fl)) =
        .ok ([], PAF.new q st t nm al mq fl)
      have hdisp : PAF.display (PAF.new q st t nm al mq fl) =
          coreFields q st t nm al mq ++ '\t' :: tabJoin fl := by
        unfold PAF.display
        dsimp only [PAF.new]
        rw [if_pos hgt]
      rw [hdisp]
      have hfields : precededP (optP tabC) sam_fields_str ('\t' :: tabJoin fl) = .ok ([], fl) := by
        have h := optFields_join fl [] hne hflds (Or.inl rfl)
        rwa [List.append_nil] at h
      exact paf_str_core q t st nm al mq ('\t' :: tabJoin fl) [] [] fl none hq ht hnm hal hmq
        (fun y hy => by cases hy; rfl) hfields optNl_nil
  · intro h1
    have hng : ¬ (fl.length > 1) := by omega
    have hdisp : PAF.display (PAF.new q st t nm al mq fl) = coreFields q st t nm al mq := by
      unfold PAF.display
      dsimp only [PAF.new]
      rw [if_neg hng]
    constructor
    · show PAF.display (PAF.new q st t nm al mq fl) = PAF.display (PAF.new q st t nm al mq [])
      rw [hdisp, hdisp0]
    · show paf_str (PAF.display (PAF.new q st t nm al mq fl)) =
        .ok ([], PAF.new q st t nm al mq [])
      rw [hdisp]
      exact hcore0

/-- Witness for C3 (amended) at a concrete zero-optional-field record. -/
theorem c3_witness :
    GoodPAF (PAF.new (Locus.new "q" 10 0 10) .Plus (Locus.new "t" 10 0 10) 1 1 1 []) ∧
    paf_str (PAF.display (PAF.new (Locus.new "q" 10 0 10) .Plus (Locus.new "t" 10 0 10)
      1 1 1 [])) =
      .ok ([], PAF.new (Locus.new "q" 10 0 10) .Plus (Locus.new "t" 10 0 10) 1 1 1 []) :=
  ⟨by decide,
   (c3_round_trip (PAF.new (Locus.new "q" 10 0 10) .Plus (Locus.new "t" 10 0 10) 1 1 1 [])
     (by decide)).1 (Or.inl rfl)⟩

/-! ### C5: the entry points are all-consuming -/

/-- Counterexample to C5 as stated: a trailing newline is not permitted
by `Locus::from_str` — the same input without the newline decodes, and
appending the single "permitted" trailing newline turns the parse into a
failure. -/
theorem c5_counterexample :
    Locus.from_str ("seqid\t10\t0\t9".data) = .ok (Locus.new "seqid" 10 0 9) ∧
    isOkE (Locus.from_str ("seqid\t10\t0\t9\n".data)) = false := by
  constructor <;> rfl

/-- C5 amended: both entry points succeed exactly when the underlying
rule consumes the entire input, and in particular reject any nonempty
unconsumed remainder.  A single trailing newline is permitted for
`PAF::from_str` only, because the record rule itself consumes it; the
locus rule consumes no newline, so for `Locus::from_str` any trailing
character — a newline included — causes a failure. -/
theorem c5_all_consuming :
    (∀ (s : List Char) (p : PAF), PAF.from_str s = .ok p ↔ paf_str s = .ok ([], p)) ∧
    (∀ (s : List Char) (l : Locus), Locus.from_str s = .ok l ↔ locus_str s = .ok ([], l)) ∧
    (∀ (s r : List Char) (p : PAF), paf_str s = .ok (r, p) → r ≠ [] →
      isOkE (PAF.from_str s) = false) ∧
    (∀ (s r : List Char) (l : Locus), locus_str s = .ok (r, l) → r ≠ [] →
      isOkE (Locus.from_str s) = false) ∧
    (∀ (q t : Locus) (st : Strand) (nm al mq : Nat), GoodLocus q → GoodLocus t →
      nm < 2 ^ 64 → al < 2 ^ 64 → mq < 2 ^ 8 →
      PAF.from_str (coreFields q st t nm al mq ++ ['\n']) = .ok (PAF.new q st t nm al mq [])) ∧
    (∀ (l : Locus), GoodLocus l → isOkE (Locus.from_str (l.display ++ ['\n'])) = false) := by
  refine ⟨fun s p => runFromStr_ok_iff paf_str s p,
    fun s l => runFromStr_ok_iff locus_str s l,
    fun s r p h hr => runFromStr_rem_ne h hr,
    fun s r l h hr => runFromStr_rem_ne h hr, ?_, ?_⟩
  · intro q t st nm al mq hq ht hnm hal hmq
    have h := paf_str_core q t st nm al mq ['\n'] ['\n'] [] [] (some '\n') hq ht hnm hal hmq
      (fun y hy => by cases hy; rfl) optFields_nl optNl_nl
    exact runFromStr_of_ok h
  · intro l hl
    have h := locus_str_core l ['\n'] hl (fun y hy => by cases hy; rfl)
    exact runFromStr_rem_ne h (by simp)

/-- Witness for C5 (amended): a concrete record line with a trailing
newline decodes through `PAF::from_str`. -/
theorem c5_witness :
    PAF.from_str (coreFields (Locus.new "seqid" 10 0 10) .Plus (Locus.new "seqid2" 10 0 10)
        1 1 1 ++ ['\n']) =
      .ok (PAF.new (Locus.new "seqid" 10 0 10) .Plus (Locus.new "seqid2" 10 0 10) 1 1 1 []) :=
  c5_all_consuming.2.2.2.2.1 (Locus.new "seqid" 10 0 10) (Locus.new "seqid2" 10 0 10) .Plus
    1 1 1 (by decide) (by decide) (by decide) (by decide) (by decide)

/-! ### C1: transport from the textual rules to the byte rules

For ASCII input the byte string corresponding to a textual input is the
character-wise code list `amap`.  `TOk p q` states that every success of
the textual rule `p` is mirrored by the byte rule `q` with the same
decoded value and the corresponding remainder; `TErr` mirrors
recoverable failures (needed below `opt` and inside `separated_list`),
and `TSuf` records that a rule only ever returns a suffix of its input
(so that ASCII-ness propagates through sequencing). -/

theorem char_toNat_injective {a b : Char} (h : a.toNat = b.toNat) : a = b := by
  have h2 := congrArg Char.ofNat h
  rwa [Char.ofNat_toNat, Char.ofNat_toNat] at h2

theorem amap_length (cs : List Char) : (amap cs).length = cs.length := by
  simp [amap]

theorem ascii_suffix {cs r : List Char} (h : r <:+ cs) (ha : Ascii cs) : Ascii r :=
  fun c hc => ha c (List.IsSuffix.mem hc h)

theorem ascii_prefix {cs r : List Char} (h : r <+: cs) (ha : Ascii cs) : Ascii r :=
  fun c hc => ha c (List.IsPrefix.mem hc h)

/-- Transport of successes from a textual rule to the byte rule. -/
def TOk {α : Type} (p : LP Char α) (q : LP Nat α) : Prop :=
  ∀ cs r v, Ascii cs → p cs = .ok (r, v) → q (amap cs) = .ok (amap r, v)

/-- Transport of recoverable failures. -/
def TErr {α : Type} (p : LP Char α) (q : LP Nat α) : Prop :=
  ∀ cs e, Ascii cs → p cs = .error e → ∃ e2, q (amap cs) = .error (.err e2)

/-- The rule only returns suffixes of its input. -/
def TSuf {α : Type} (p : LP Char α) : Prop :=
  ∀ cs r v, p cs = .ok (r, v) → r <:+ cs

theorem TOk_pmap {α β : Type} {p : LP Char α} {q : LP Nat α} (h : TOk p q) (g : α → β) :
    TOk (pmap p g) (pmap q g) := by
  intro cs r v ha hok
  unfold pmap at hok ⊢
  cases hp : p cs with
  | ok rv =>
    obtain ⟨r0, v0⟩ := rv
    rw [hp] at hok
    injection hok with h1
    injection h1 with h1 h2
    subst h1
    subst h2
    rw [h cs r0 v0 ha hp]
  | error e =>
    rw [hp] at hok
    cases hok

theorem TSuf_pmap {α β : Type} {p : LP Char α} (h : TSuf p) (g : α → β) :
    TSuf (pmap p g) := by
  intro cs r v hok
  unfold pmap at hok
  cases hp : p cs with
  | ok rv =>
    obtain ⟨r0, v0⟩ := rv
    rw [hp] at hok
    injection hok with h1
    injection h1 with h1 h2
    subst h1
    exact h cs r0 v0 hp
  | error e =>
    rw [hp] at hok
    cases hok

theorem TOk_context {α : Type} {p : LP Char α} {q : LP Nat α} (h : TOk p q) (s : String) :
    TOk (contextP s p) (contextP s q) := by
  intro cs r v ha hok
  unfold contextP at hok ⊢
  cases hp : p cs with
  | ok rv =>
    obtain ⟨r0, v0⟩ := rv
    rw [hp] at hok
    injection hok with h1
    injection h1 with h1 h2
    subst h1
    subst h2
    rw [h cs r0 v0 ha hp]
  | error e =>
    rw [hp] at hok
    cases e <;> cases hok

theorem TErr_context {α : Type} {p : LP Char α} {q : LP Nat α}
    (ho : TOk p q) (he : TErr p q) (s : String) :
    TErr (contextP s p) (contextP s q) := by
  intro cs e ha herr
  unfold contextP at herr ⊢
  cases hp : p cs with
  | ok rv =>
    rw [hp] at herr
    cases herr
  | error e0 =>
    obtain ⟨e2, hq⟩ := he cs e0 ha hp
    rw [hq]
    exact ⟨e2 ++ [(amap cs, .vctx s)], rfl⟩

theorem TSuf_context {α : Type} {p : LP Char α} (h : TSuf p) (s : String) :
    TSuf (contextP s p) := by
  intro cs r v hok
  unfold contextP at hok
  cases hp : p cs with
  | ok rv =>
    rw [hp] at hok
    injection hok with h1
    rw [show rv = (r, v) from h1] at hp
    exact h cs r v hp
  | error e =>
    rw [hp] at hok
    cases e <;> cases hok

theorem TOk_pseq {α β : Type} {p : LP Char α} {q : LP Nat α} {p' : LP Char β} {q' : LP Nat β}
    (h : TOk p q) (hs : TSuf p) (h' : TOk p' q') : TOk (pseq p p') (pseq q q') := by
  intro cs r v ha hok
  unfold pseq at hok
  cases hp : p cs with
  | ok rv =>
    obtain ⟨i1, a⟩ := rv
    rw [hp] at hok
    dsimp only at hok
    have ha1 : Ascii i1 := ascii_suffix (hs cs i1 a hp) ha
    cases hp' : p' i1 with
    | ok rv' =>
      obtain ⟨i2, b⟩ := rv'
      rw [hp'] at hok
      injection hok with h1
      injection h1 with h1 h2
      subst h1
      subst h2
      exact pseq_ok (h cs i1 a ha hp) (h' i1 i2 b ha1 hp')
    | error e =>
      rw [hp'] at hok
      cases hok
  | error e =>
    rw [hp] at hok
    cases hok

theorem TSuf_pseq {α β : Type} {p : LP Char α} {p' : LP Char β}
    (hs : TSuf p) (hs' : TSuf p') : TSuf (pseq p p') := by
  intro cs r v hok
  unfold pseq at hok
  cases hp : p cs with
  | ok rv =>
    obtain ⟨i1, a⟩ := rv
    rw [hp] at hok
    dsimp only at hok
    cases hp' : p' i1 with
    | ok rv' =>
      obtain ⟨i2, b⟩ := rv'
      rw [hp'] at hok
      injection hok with h1
      injection h1 with h1 h2
      subst h1
      exact (hs' i1 i2 b hp').trans (hs cs i1 a hp)
    | error e =>
      rw [hp'] at hok
      cases hok
  | error e =>
    rw [hp] at hok
    cases hok

theorem TOk_opt {α : Type} {p : LP Char α} {q : LP Nat α}
    (h : TOk p q) (he : TErr p q) : TOk (optP p) (optP q) := by
  intro cs r v ha hok
  unfold optP at hok ⊢
  cases hp : p cs with
  | ok rv =>
    obtain ⟨r0, v0⟩ := rv
    rw [hp] at hok
    injection hok with h1
    injection h1 with h1 h2
    subst h1
    subst h2
    rw [h cs r0 v0 ha hp]
  | error e =>
    rw [hp] at hok
    cases e with
    | err e0 =>
      injection hok with h1
      injection h1 with h1 h2
      subst h1
      subst h2
      obtain ⟨e2, hq⟩ := he cs (.err e0) ha hp
      rw [hq]
    | fail e0 => cases hok

theorem TSuf_opt {α : Type} {p : LP Char α} (hs : TSuf p) : TSuf (optP p) := by
  intro cs r v hok
  unfold optP at hok
  cases hp : p cs with
  | ok rv =>
    obtain ⟨r0, v0⟩ := rv
    rw [hp] at hok
    injection hok with h1
    injection h1 with h1 h2
    subst h1
    exact hs cs r0 v0 hp
  | error e =>
    rw [hp] at hok
    cases e with
    | err e0 =>
      injection hok with h1
      injection h1 with h1 h2
      subst h1
      exact List.suffix_rfl
    | fail e0 => cases hok

/-! #### Primitive transports -/

theorem TOk_char (c : Char) : TOk (charC c) (charB c) := by
  intro cs r v ha hok
  cases cs with
  | nil => simp [charC] at hok
  | cons x xs =>
    simp only [charC] at hok
    by_cases hx : x = c
    · rw [if_pos hx] at hok
      injection hok with h1
      injection h1 with h1 h2
      subst hx
      subst h1
      subst h2
      simp [charB, amap]
    · rw [if_neg hx] at hok
      cases hok

theorem TErr_char (c : Char) : TErr (charC c) (charB c) := by
  intro cs e ha herr
  cases cs with
  | nil => exact ⟨[([], .vchar c)], rfl⟩
  | cons x xs =>
    simp only [charC] at herr
    by_cases hx : x = c
    · rw [if_pos hx] at herr
      cases herr
    · refine ⟨[(amap (x :: xs), .vchar c)], ?_⟩
      have hxn : ¬ (x.toNat = c.toNat) := fun hh => hx (char_toNat_injective hh)
      simp [charB, amap, hxn]

theorem TSuf_char (c : Char) : TSuf (charC c) := by
  intro cs r v hok
  cases cs with
  | nil => simp [charC] at hok
  | cons x xs =>
    simp only [charC] at hok
    by_cases hx : x = c
    · rw [if_pos hx] at hok
      injection hok with h1
      injection h1 with h1 h2
      subst h1
      exact List.suffix_cons x xs
    · rw [if_neg hx] at hok
      cases hok

theorem TOk_oneof_strand : TOk (one_ofC ['+', '-']) (one_ofB ['+', '-']) := by
  intro cs r v ha hok
  cases cs with
  | nil => simp [one_ofC] at hok
  | cons x xs =>
    simp only [one_ofC] at hok
    by_cases hx : x ∈ (['+', '-'] : List Char)
    · rw [if_pos hx] at hok
      injection hok with h1
      injection h1 with h1 h2
      subst h1
      subst h2
      have hx2 : x = '+' ∨ x = '-' := by simpa using hx
      rcases hx2 with rfl | rfl <;> rfl
    · rw [if_neg hx] at hok
      cases hok

theorem TSuf_oneof_strand : TSuf (one_ofC ['+', '-']) := by
  intro cs r v hok
  cases cs with
  | nil => simp [one_ofC] at hok
  | cons x xs =>
    simp only [one_ofC] at hok
    by_cases hx : x ∈ (['+', '-'] : List Char)
    · rw [if_pos hx] at hok
      injection hok with h1
      injection h1 with h1 h2
      subst h1
      exact List.suffix_cons x xs
    · rw [if_neg hx] at hok
      cases hok

theorem TOk_strand : TOk strand_str strand_u8 :=
  TOk_pmap (TOk_context TOk_oneof_strand _) _

theorem TSuf_strand : TSuf strand_str :=
  TSuf_pmap (TSuf_context TSuf_oneof_strand _) _

theorem badset_contains (c : Char) :
    (([9, 13, 10] : List Nat).contains c.toNat) =
      ((['\t', '\r', '\n'] : List Char).contains c) := by
  by_cases h1 : c = '\t'
  · subst h1; rfl
  by_cases h2 : c = '\r'
  · subst h2; rfl
  by_cases h3 : c = '\n'
  · subst h3; rfl
  have h9 : ¬ (c.toNat = 9) := fun he => h1 (char_toNat_injective (he.trans (by decide)))
  have h13 : ¬ (c.toNat = 13) := fun he => h2 (char_toNat_injective (he.trans (by decide)))
  have h10 : ¬ (c.toNat = 10) := fun he => h3 (char_toNat_injective (he.trans (by decide)))
  simp [List.contains_eq_any_beq, beq_iff_eq, h1, h2, h3, h9, h13, h10]

theorem takeWhile_amap (pC : Char → Bool) (pB : Nat → Bool) (cs : List Char)
    (hpt : ∀ c : Char, pB c.toNat = pC c) :
    (amap cs).takeWhile pB = amap (cs.takeWhile pC) := by
  induction cs with
  | nil => rfl
  | cons c cs ih =>
    have ih2 : (List.map Char.toNat cs).takeWhile pB = List.map Char.toNat (cs.takeWhile pC) := ih
    show (List.map Char.toNat (c :: cs)).takeWhile pB =
      List.map Char.toNat ((c :: cs).takeWhile pC)
    rw [List.map_cons, List.takeWhile_cons, List.takeWhile_cons, hpt c]
    cases hc : pC c
    · rw [if_neg (by simp), if_neg (by simp)]
      rfl
    · rw [if_pos rfl, if_pos rfl, List.map_cons, ih2]

theorem utf8DecodeAux_ascii (cs : List Char) : ∀ fuel, cs.length ≤ fuel → Ascii cs →
    utf8DecodeAux fuel (amap cs) = some cs := by
  induction cs with
  | nil =>
    intro fuel _ _
    cases fuel <;> rfl
  | cons c cs ih =>
    intro fuel hf ha
    have hf2 : cs.length + 1 ≤ fuel := by simpa using hf
    obtain ⟨k, rfl⟩ : ∃ k, fuel = k + 1 := ⟨fuel - 1, by omega⟩
    have hc : c.toNat < 128 := ha c (by simp)
    show utf8DecodeAux (k + 1) (c.toNat :: amap cs) = some (c :: cs)
    rw [utf8DecodeAux.eq_def]
    dsimp only
    rw [if_pos (by omega)]
    rw [ih k (by omega) (fun x hx => ha x (by simp [hx]))]
    simp [Char.ofNat_toNat]

theorem utf8Decode_ascii (cs : List Char) (ha : Ascii cs) : utf8Decode (amap cs) = some cs := by
  unfold utf8Decode
  rw [amap_length]
  exact utf8DecodeAux_ascii cs cs.length (Nat.le_refl _) ha

theorem TOk_string : TOk string_str string_u8 := by
  intro cs r v ha hok
  unfold string_str contextP pmap is_notC at hok
  by_cases hxs : cs.takeWhile (fun c => !((['\t', '\r', '\n'] : List Char).contains c)) = []
  · rw [if_pos hxs] at hok
    cases hok
  · rw [if_neg hxs] at hok
    injection hok with h1
    injection h1 with h1 h2
    subst h1
    subst h2
    have hbyte_tw : (amap cs).takeWhile (fun b => !(([9, 13, 10] : List Nat).contains b)) =
        amap (cs.takeWhile (fun c => !((['\t', '\r', '\n'] : List Char).contains c))) :=
      takeWhile_amap _ _ cs (fun c => by rw [badset_contains])
    have haxs : Ascii (cs.takeWhile (fun c => !((['\t', '\r', '\n'] : List Char).contains c))) :=
      ascii_prefix (List.takeWhile_prefix _) ha
    have hdec := utf8Decode_ascii _ haxs
    have hne : amap (cs.takeWhile (fun c => !((['\t', '\r', '\n'] : List Char).contains c))) ≠
        [] := by
      simpa [amap] using hxs
    have h1 : is_notB [9, 13, 10] (amap cs) =
        .ok (amap (cs.drop (cs.takeWhile
            (fun c => !((['\t', '\r', '\n'] : List Char).contains c))).length),
          amap (cs.takeWhile (fun c => !((['\t', '\r', '\n'] : List Char).contains c)))) := by
      unfold is_notB
      rw [hbyte_tw, if_neg hne, amap_length]
      rw [show ∀ n, (amap cs).drop n = amap (cs.drop n) from fun n => (List.map_drop _ _ _).symm]
    apply contextP_ok
    unfold map_res
    rw [h1]
    dsimp only
    rw [hdec]
    rfl

theorem TErr_string : TErr string_str string_u8 := by
  intro cs e ha herr
  unfold string_str contextP pmap is_notC at herr
  by_cases hxs : cs.takeWhile (fun c => !((['\t', '\r', '\n'] : List Char).contains c)) = []
  · have hbyte_tw : (amap cs).takeWhile (fun b => !(([9, 13, 10] : List Nat).contains b)) =
        ([] : List Nat) := by
      rw [takeWhile_amap _ _ cs (fun c => by rw [badset_contains]), hxs]
      rfl
    refine ⟨[(amap cs, .vnom .isNot), (amap cs, .vctx "expected an utf-8 string")], ?_⟩
    unfold string_u8 contextP map_res is_notB
    rw [hbyte_tw]
    rfl
  · rw [if_neg hxs] at herr
    cases herr

theorem TSuf_string : TSuf string_str := by
  intro cs r v hok
  unfold string_str contextP pmap is_notC at hok
  by_cases hxs : cs.takeWhile (fun c => !((['\t', '\r', '\n'] : List Char).contains c)) = []
  · rw [if_pos hxs] at hok
    cases hok
  · rw [if_neg hxs] at hok
    injection hok with h1
    injection h1 with h1 h2
    subst h1
    exact List.drop_suffix _ _

theorem parseNatB_amap (ds : List Char) : parseNatB (amap ds) = parseNat ds := by
  unfold parseNatB parseNat amap
  rw [List.foldl_map]

theorem TOk_uint64 : TOk uint64_str uint64_u8 := by
  intro cs r v ha hok
  unfold uint64_str contextP map_res digit1C at hok
  by_cases hxs : cs.takeWhile isDigitC = []
  · rw [if_pos hxs] at hok
    cases hok
  · rw [if_neg hxs] at hok
    dsimp only at hok
    have hbyte_tw : (amap cs).takeWhile isDigitB = amap (cs.takeWhile isDigitC) :=
      takeWhile_amap _ _ cs (fun c => rfl)
    have hne : amap (cs.takeWhile isDigitC) ≠ [] := by simpa [amap] using hxs
    have h1 : digit1B (amap cs) =
        .ok (amap (cs.drop (cs.takeWhile isDigitC).length), amap (cs.takeWhile isDigitC)) := by
      unfold digit1B
      rw [hbyte_tw, if_neg hne, amap_length]
      rw [show ∀ n, (amap cs).drop n = amap (cs.drop n) from fun n => (List.map_drop _ _ _).symm]
    have hparse : parseU64B (amap (cs.takeWhile isDigitC)) =
        parseU64 (cs.takeWhile isDigitC) := by
      unfold parseU64B parseU64
      rw [parseNatB_amap]
    cases hp : parseU64 (cs.takeWhile isDigitC) with
    | none =>
      rw [hp] at hok
      cases hok
    | some n =>
      rw [hp] at hok
      injection hok with h1'
      injection h1' with h1' h2'
      subst h1'
      subst h2'
      apply contextP_ok
      unfold map_res
      rw [h1]
      dsimp only
      rw [hparse, hp]

theorem TSuf_uint64 : TSuf uint64_str := by
  intro cs r v hok
  unfold uint64_str contextP map_res digit1C at hok
  by_cases hxs : cs.takeWhile isDigitC = []
  · rw [if_pos hxs] at hok
    cases hok
  · rw [if_neg hxs] at hok
    dsimp only at hok
    cases hp : parseU64 (cs.takeWhile isDigitC) with
    | none =>
      rw [hp] at hok
      cases hok
    | some n =>
      rw [hp] at hok
      injection hok with h1
      injection h1 with h1 h2
      subst h1
      exact List.drop_suffix _ _

theorem TOk_uint8 : TOk uint8_str uint8_u8 := by
  intro cs r v ha hok
  unfold uint8_str contextP map_res digit1C at hok
  by_cases hxs : cs.takeWhile isDigitC = []
  · rw [if_pos hxs] at hok
    cases hok
  · rw [if_neg hxs] at hok
    dsimp only at hok
    have hbyte_tw : (amap cs).takeWhile isDigitB = amap (cs.takeWhile isDigitC) :=
      takeWhile_amap _ _ cs (fun c => rfl)
    have hne : amap (cs.takeWhile isDigitC) ≠ [] := by simpa [amap] using hxs
    have h1 : digit1B (amap cs) =
        .ok (amap (cs.drop (cs.takeWhile isDigitC).length), amap (cs.takeWhile isDigitC)) := by
      unfold digit1B
      rw [hbyte_tw, if_neg hne, amap_length]
      rw [show ∀ n, (amap cs).drop n = amap (cs.drop n) from fun n => (List.map_drop _ _ _).symm]
    have hparse : parseU8B (amap (cs.takeWhile isDigitC)) = parseU8 (cs.takeWhile isDigitC) := by
      unfold parseU8B parseU8
      rw [parseNatB_amap]
    cases hp : parseU8 (cs.takeWhile isDigitC) with
    | none =>
      rw [hp] at hok
      cases hok
    | some n =>
      rw [hp] at hok
      injection hok with h1'
      injection h1' with h1' h2'
      subst h1'
      subst h2'
      apply contextP_ok
      unfold map_res
      rw [h1]
      dsimp only
      rw [hparse, hp]

theorem TSuf_uint8 : TSuf uint8_str := by
  intro cs r v hok
  unfold uint8_str contextP map_res digit1C at hok
  by_cases hxs : cs.takeWhile isDigitC = []
  · rw [if_pos hxs] at hok
    cases hok
  · rw [if_neg hxs] at hok
    dsimp only at hok
    cases hp : parseU8 (cs.takeWhile isDigitC) with
    | none =>
      rw [hp] at hok
      cases hok
    | some n =>
      rw [hp] at hok
      injection hok with h1
      injection h1 with h1 h2
      subst h1
      exact List.drop_suffix _ _

/-! #### Transport through `separated_list` -/

theorem TOk_sepLoop : ∀ (fuel : Nat) (cs : List Char) (res : List String) (r : List Char)
    (out : List String), Ascii cs →
    sepLoop tabC string_str fuel cs res = .ok (r, out) →
    sepLoop tabB string_u8 fuel (amap cs) res = .ok (amap r, out) := by
  intro fuel
  induction fuel with
  | zero =>
    intro cs res r out ha h
    cases h
  | succ fuel ih =>
    intro cs res r out ha h
    rw [sepLoop] at h
    rw [sepLoop]
    cases hsep : tabC cs with
    | error e =>
      cases e with
      | err e0 =>
        rw [hsep] at h
        injection h with h1
        injection h1 with h1 h2
        subst h1
        subst h2
        obtain ⟨e2, hbs⟩ := TErr_char '\t' cs (.err e0) ha hsep
        have hbs2 : tabB (amap cs) = .error (.err e2) := hbs
        rw [hbs2]
      | fail e0 =>
        rw [hsep] at h
        cases h
    | ok rv =>
      obtain ⟨i1, c1⟩ := rv
      rw [hsep] at h
      dsimp only at h
      have hb : tabB (amap cs) = .ok (amap i1, c1) := TOk_char '\t' cs i1 c1 ha hsep
      rw [hb]
      dsimp only
      have ha1 : Ascii i1 := ascii_suffix (TSuf_char '\t' cs i1 c1 hsep) ha
      by_cases hl : i1.length = cs.length
      · rw [if_pos hl] at h
        cases h
      · rw [if_neg hl] at h
        rw [if_neg (by simpa [amap_length] using hl)]
        cases hstr : string_str i1 with
        | error e =>
          cases e with
          | err e0 =>
            rw [hstr] at h
            injection h with h1
            injection h1 with h1 h2
            subst h1
            subst h2
            obtain ⟨e2, hbs⟩ := TErr_string i1 (.err e0) ha1 hstr
            rw [hbs]
          | fail e0 =>
            rw [hstr] at h
            cases h
        | ok rv2 =>
          obtain ⟨i2, o⟩ := rv2
          rw [hstr] at h
          dsimp only at h
          rw [TOk_string i1 i2 o ha1 hstr]
          dsimp only
          have ha2 : Ascii i2 := ascii_suffix (TSuf_string i1 i2 o hstr) ha1
          by_cases hl2 : i2.length = cs.length
          · rw [if_pos hl2] at h
            cases h
          · rw [if_neg hl2] at h
            rw [if_neg (by simpa [amap_length] using hl2)]
            exact ih i2 (res ++ [o]) r out ha2 h

theorem TSuf_sepLoop : ∀ (fuel : Nat) (cs : List Char) (res : List String) (r : List Char)
    (out : List String),
    sepLoop tabC string_str fuel cs res = .ok (r, out) → r <:+ cs := by
  intro fuel
  induction fuel with
  | zero =>
    intro cs res r out h
    cases h
  | succ fuel ih =>
    intro cs res r out h
    rw [sepLoop] at h
    cases hsep : tabC cs with
    | error e =>
      cases e with
      | err e0 =>
        rw [hsep] at h
        injection h with h1
        injection h1 with h1 h2
        subst h1
        exact List.suffix_rfl
      | fail e0 =>
        rw [hsep] at h
        cases h
    | ok rv =>
      obtain ⟨i1, c1⟩ := rv
      rw [hsep] at h
      dsimp only at h
      by_cases hl : i1.length = cs.length
      · rw [if_pos hl] at h
        cases h
      · rw [if_neg hl] at h
        cases hstr : string_str i1 with
        | error e =>
          cases e with
          | err e0 =>
            rw [hstr] at h
            injection h with h1
            injection h1 with h1 h2
            subst h1
            exact List.suffix_rfl
          | fail e0 =>
            rw [hstr] at h
            cases h
        | ok rv2 =>
          obtain ⟨i2, o⟩ := rv2
          rw [hstr] at h
          dsimp only at h
          by_cases hl2 : i2.length = cs.length
          · rw [if_pos hl2] at h
            cases h
          · rw [if_neg hl2] at h
            exact ((ih i2 (res ++ [o]) r out h).trans
              (TSuf_string i1 i2 o hstr)).trans (TSuf_char '\t' cs i1 c1 hsep)

theorem TOk_sam_fields : TOk sam_fields_str sam_fields_u8 := by
  intro cs r v ha h
  unfold sam_fields_str separated_listP at h
  unfold sam_fields_u8 separated_listP
  cases hstr : string_str cs with
  | error e =>
    cases e with
    | err e0 =>
      rw [hstr] at h
      injection h with h1
      injection h1 with h1 h2
      subst h1
      subst h2
      obtain ⟨e2, hbs⟩ := TErr_string cs (.err e0) ha hstr
      rw [hbs]
    | fail e0 =>
      rw [hstr] at h
      cases h
  | ok rv =>
    obtain ⟨i1, o⟩ := rv
    rw [hstr] at h
    dsimp only at h
    rw [TOk_string cs i1 o ha hstr]
    dsimp only
    have ha1 : Ascii i1 := ascii_suffix (TSuf_string cs i1 o hstr) ha
    by_cases hl : i1.length = cs.length
    · rw [if_pos hl] at h
      cases h
    · rw [if_neg hl] at h
      rw [if_neg (by simpa [amap_length] using hl)]
      rw [amap_length]
      exact TOk_sepLoop (i1.length + 1) i1 [o] r v ha1 h

theorem TSuf_sam_fields : TSuf sam_fields_str := by
  intro cs r v h
  unfold sam_fields_str separated_listP at h
  cases hstr : string_str cs with
  | error e =>
    cases e with
    | err e0 =>
      rw [hstr] at h
      injection h with h1
      injection h1 with h1 h2
      subst h1
      exact List.suffix_rfl
    | fail e0 =>
      rw [hstr] at h
      cases h
  | ok rv =>
    obtain ⟨i1, o⟩ := rv
    rw [hstr] at h
    dsimp only at h
    by_cases hl : i1.length = cs.length
    · rw [if_pos hl] at h
      cases h
    · rw [if_neg hl] at h
      exact (TSuf_sepLoop (i1.length + 1) i1 [o] r v h).trans (TSuf_string cs i1 o hstr)

/-! #### Composition into the locus and record rules -/

theorem TOk_tab : TOk tabC tabB := TOk_char '\t'

theorem TErr_tab : TErr tabC tabB := TErr_char '\t'

theorem TSuf_tab : TSuf tabC := TSuf_char '\t'

theorem TOk_newline : TOk newlineC newlineB := TOk_char '\n'

theorem TErr_newline : TErr newlineC newlineB := TErr_char '\n'

theorem TOk_strTab (s : String) :
    TOk (contextP s (terminatedP string_str tabC)) (contextP s (terminatedP string_u8 tabB)) :=
  TOk_context (TOk_pmap (TOk_pseq TOk_string TSuf_string TOk_tab) _) s

theorem TSuf_strTab (s : String) : TSuf (contextP s (terminatedP string_str tabC)) :=
  TSuf_context (TSuf_pmap (TSuf_pseq TSuf_string TSuf_tab) _) s

theorem TOk_u64Tab (s : String) :
    TOk (contextP s (terminatedP uint64_str tabC)) (contextP s (terminatedP uint64_u8 tabB)) :=
  TOk_context (TOk_pmap (TOk_pseq TOk_uint64 TSuf_uint64 TOk_tab) _) s

theorem TSuf_u64Tab (s : String) : TSuf (contextP s (terminatedP uint64_str tabC)) :=
  TSuf_context (TSuf_pmap (TSuf_pseq TSuf_uint64 TSuf_tab) _) s

theorem TOk_strandTab (s : String) :
    TOk (contextP s (terminatedP strand_str tabC)) (contextP s (terminatedP strand_u8 tabB)) :=
  TOk_context (TOk_pmap (TOk_pseq TOk_strand TSuf_strand TOk_tab) _) s

theorem TSuf_strandTab (s : String) : TSuf (contextP s (terminatedP strand_str tabC)) :=
  TSuf_context (TSuf_pmap (TSuf_pseq TSuf_strand TSuf_tab) _) s

theorem TOk_mqField (s : String) : TOk (contextP s uint8_str) (contextP s uint8_u8) :=
  TOk_context TOk_uint8 s

theorem TSuf_mqField (s : String) : TSuf (contextP s uint8_str) :=
  TSuf_context TSuf_uint8 s

theorem TOk_optFields (s : String) :
    TOk (contextP s (precededP (optP tabC) sam_fields_str))
      (contextP s (precededP (optP tabB) sam_fields_u8)) :=
  TOk_context (TOk_pmap (TOk_pseq (TOk_opt TOk_tab TErr_tab) (TSuf_opt TSuf_tab)
    TOk_sam_fields) _) s

theorem TSuf_optFields (s : String) : TSuf (contextP s (precededP (optP tabC) sam_fields_str)) :=
  TSuf_context (TSuf_pmap (TSuf_pseq (TSuf_opt TSuf_tab) TSuf_sam_fields) _) s

theorem TOk_locus : TOk locus_str locus_u8 := by
  unfold locus_str locus_u8
  exact TOk_pmap
    (TOk_pseq (TOk_strTab _) (TSuf_strTab _)
      (TOk_pseq (TOk_u64Tab _) (TSuf_u64Tab _)
        (TOk_pseq (TOk_u64Tab _) (TSuf_u64Tab _)
          (TOk_context TOk_uint64 _)))) _

theorem TOk_paf : TOk paf_str paf_u8 := by
  unfold paf_str paf_u8
  exact TOk_pmap
    (TOk_pseq (TOk_strTab _) (TSuf_strTab _)
      (TOk_pseq (TOk_u64Tab _) (TSuf_u64Tab _)
        (TOk_pseq (TOk_u64Tab _) (TSuf_u64Tab _)
          (TOk_pseq (TOk_u64Tab _) (TSuf_u64Tab _)
            (TOk_pseq (TOk_strandTab _) (TSuf_strandTab _)
              (TOk_pseq (TOk_strTab _) (TSuf_strTab _)
                (TOk_pseq (TOk_u64Tab _) (TSuf_u64Tab _)
                  (TOk_pseq (TOk_u64Tab _) (TSuf_u64Tab _)
                    (TOk_pseq (TOk_u64Tab _) (TSuf_u64Tab _)
                      (TOk_pseq (TOk_u64Tab _) (TSuf_u64Tab _)
                        (TOk_pseq (TOk_u64Tab _) (TSuf_u64Tab _)
                          (TOk_pseq (TOk_mqField _) (TSuf_mqField _)
                            (TOk_pseq (TOk_optFields _) (TSuf_optFields _)
                              (TOk_opt TOk_newline TErr_newline)))))))))))))) _

/-- C1: for every ASCII input on which the textual rule succeeds, the
raw-byte rule on the corresponding byte string yields the same decoded
record (or locus) and the corresponding remainder — the two entry-point
variants agree on legal ASCII inputs, value for value and byte for
character. -/
theorem c1_text_byte_equivalence (cs : List Char) (h : Ascii cs) :
    (∀ (r : List Char) (p : PAF), paf_str cs = .ok (r, p) →
      paf_u8 (amap cs) = .ok (amap r, p)) ∧
    (∀ (r : List Char) (l : Locus), locus_str cs = .ok (r, l) →
      locus_u8 (amap cs) = .ok (amap r, l)) :=
  ⟨fun r p hok => TOk_paf cs r p h hok, fun r l hok => TOk_locus cs r l h hok⟩

/-- Witness for C1: the spec's concrete record line, parsed as text and
as bytes. -/
theorem c1_witness :
    paf_u8 (amap ("seqid\t10\t0\t10\t+\tseqid2\t10\t0\t10\t1\t1\t1".data)) =
      .ok ([], PAF.new (Locus.new "seqid" 10 0 10) .Plus (Locus.new "seqid2" 10 0 10) 1 1 1 []) :=
  (c1_text_byte_equivalence ("seqid\t10\t0\t10\t+\tseqid2\t10\t0\t10\t1\t1\t1".data)
    (by decide)).1 [] _ (by rfl)

end PafLib
